import Mathlib

/-!
Verification development for the caddysnake WSGI/ASGI server
(src/caddysnake.py).  Wire-level data is modelled as lists of byte
values (`Bytes := List Nat`); Python `str` data that stays in the
latin-1 range is modelled by the same lists (latin-1 decoding is a
bijection between bytes and the first 256 code points), or by Lean
`String` where the source works with text keys.
-/

namespace Caddysnake

/-- A byte string: Python `bytes` (each element is intended to be < 256). -/
abbrev Bytes := List Nat

/-- Encode a Lean string as latin-1 bytes (used for ASCII literals). -/
def strB (s : String) : Bytes := s.toList.map Char.toNat

/-- CRLF line terminator. -/
def CRLF : Bytes := [13, 10]

/-- ASCII whitespace bytes stripped by Python bytes.strip(). -/
def isWSByte (b : Nat) : Bool :=
  b = 32 || b = 9 || b = 10 || b = 13 || b = 11 || b = 12

/-- Python bytes.strip(): drop ASCII whitespace from both ends. -/
def bstrip (l : Bytes) : Bytes :=
  ((l.dropWhile isWSByte).reverse.dropWhile isWSByte).reverse

/-- Python bytes.lower() / ASCII str.lower(): map A-Z to a-z. -/
def blower (l : Bytes) : Bytes :=
  l.map (fun b => if 65 ≤ b ∧ b ≤ 90 then b + 32 else b)

/-- Python substring test (the `in` operator on bytes/str). -/
def containsSub (needle : Bytes) : Bytes → Bool
  | [] => needle.isPrefixOf []
  | b :: rest => needle.isPrefixOf (b :: rest) || containsSub needle rest

/-- Python dict assignment d[k] = v on an insertion-ordered map:
existing key keeps its position, new key is appended. -/
def dictSet (d : List (Bytes × Bytes)) (k v : Bytes) : List (Bytes × Bytes) :=
  if d.any (fun p => p.1 = k) then
    d.map (fun p => if p.1 = k then (k, v) else p)
  else
    d ++ [(k, v)]

/-- Python dict.get(k): the stored value, if present. -/
def dictGet (d : List (Bytes × Bytes)) (k : Bytes) : Option Bytes :=
  (d.find? (fun p => p.1 = k)).map (fun p => p.2)

/-- Python dict.get(k, default). -/
def dictGetD (d : List (Bytes × Bytes)) (k : Bytes) (dflt : Bytes) : Bytes :=
  (dictGet d k).getD dflt

/-- Value of an ASCII decimal digit byte. -/
def digitVal10 (b : Nat) : Option Nat :=
  if 48 ≤ b ∧ b ≤ 57 then some (b - 48) else none

/-- Value of an ASCII hexadecimal digit byte (both cases). -/
def digitVal16 (b : Nat) : Option Nat :=
  if 48 ≤ b ∧ b ≤ 57 then some (b - 48)
  else if 97 ≤ b ∧ b ≤ 102 then some (b - 87)
  else if 65 ≤ b ∧ b ≤ 70 then some (b - 55)
  else none

/-- Digit-sequence tail of Python int(): after the first digit, each
underscore must be followed directly by another digit. -/
def parseDigitsAux (base : Nat) (dv : Nat → Option Nat) :
    Bytes → Nat → Option Nat
  | [], acc => some acc
  | b :: rest, acc =>
    if b = 95 then
      match rest with
      | [] => none
      | c :: rest2 =>
        match dv c with
        | some d => parseDigitsAux base dv rest2 (acc * base + d)
        | none => none
    else
      match dv b with
      | some d => parseDigitsAux base dv rest (acc * base + d)
      | none => none

/-- Nonempty digit sequence (first character must be a digit). -/
def parseDigits (base : Nat) (dv : Nat → Option Nat) : Bytes → Option Nat
  | [] => none
  | b :: rest =>
    match dv b with
    | some d => parseDigitsAux base dv rest d
    | none => none

/-- Python int(s, base) for base 10 and 16 on latin-1 text: strip ASCII
whitespace, optional sign, for base 16 an optional 0x/0X marker, then a
nonempty digit string with optional underscore grouping.  Returns none
where Python raises ValueError. -/
def pyInt (base : Nat) (l : Bytes) : Option Int :=
  let l1 := bstrip l
  let sign : Int := if l1.head? = some 45 then -1 else 1
  let l2 := if l1.head? = some 43 ∨ l1.head? = some 45 then l1.tail else l1
  let l3 :=
    if base = 16 ∧ l2.head? = some 48 ∧
        (l2.tail.head? = some 120 ∨ l2.tail.head? = some 88) then
      l2.tail.tail
    else l2
  let dv := if base = 16 then digitVal16 else digitVal10
  (parseDigits base dv l3).map (fun n => sign * (n : Int))

/-! ### Asyncio stream primitives

The reader functions of asyncio.StreamReader, modelled on a byte list
that represents the not-yet-consumed input of the connection. -/

/-- reader.readuntil(sep): the bytes up to and including the first
occurrence of sep, plus the rest.  none models the IncompleteReadError
and LimitOverrunError exceptions (separator never found). -/
def readUntil (sep : Bytes) : Bytes → Option (Bytes × Bytes)
  | [] => none
  | b :: rest =>
    if sep.isPrefixOf (b :: rest) then
      some (sep, (b :: rest).drop sep.length)
    else
      match readUntil sep rest with
      | some (d, r) => some (b :: d, r)
      | none => none

/-- reader.readexactly(n): exactly n bytes, or none for the
IncompleteReadError exception. -/
def readExactly (n : Nat) (l : Bytes) : Option (Bytes × Bytes) :=
  if n ≤ l.length then some (l.take n, l.drop n) else none

/-- reader.readline(): bytes up to and including the first LF; at EOF
the remainder is returned without error. -/
def readLine : Bytes → Bytes × Bytes
  | [] => ([], [])
  | b :: rest =>
    if b = 10 then ([10], rest)
    else
      let p := readLine rest
      (b :: p.1, p.2)

theorem readLine_append_eq (l : Bytes) : (readLine l).1 ++ (readLine l).2 = l := by
  induction l with
  | nil => simp [readLine]
  | cons b rest ih =>
    by_cases h : b = 10 <;> simp [readLine, h, ih]

theorem readLine_fst_nil_iff (l : Bytes) : (readLine l).1 = [] ↔ l = [] := by
  cases l with
  | nil => simp [readLine]
  | cons b rest =>
    constructor
    · intro h
      by_cases hb : b = 10 <;> simp [readLine, hb] at h
    · intro h
      exact absurd h (by simp)

theorem readLine_snd_length_le (l : Bytes) : (readLine l).2.length ≤ l.length := by
  induction l with
  | nil => simp [readLine]
  | cons b rest ih =>
    by_cases h : b = 10 <;> simp [readLine, h]
    omega

theorem readLine_snd_length_lt (l : Bytes) (h : l ≠ []) :
    (readLine l).2.length < l.length := by
  cases l with
  | nil => exact absurd rfl h
  | cons b rest =>
    by_cases hb : b = 10
    · simp [readLine, hb]
    · have := readLine_snd_length_le rest
      simp [readLine, hb]
      omega

/-! ### HTTP/1.1 request parsing: the embedding of _read_http_request -/

/-- Python bytes.split(b"\r\n") on the header block. -/
def splitCRLFSeq : Bytes → List Bytes
  | 13 :: 10 :: rest => [] :: splitCRLFSeq rest
  | b :: rest =>
    match splitCRLFSeq rest with
    | [] => [[b]]
    | x :: xs => (b :: x) :: xs
  | [] => [[]]

/-- Python str.split(" ", 2): split at the first two spaces. -/
def splitSpaceOnce : Bytes → Option (Bytes × Bytes)
  | [] => none
  | b :: r =>
    if b = 32 then some ([], r)
    else (splitSpaceOnce r).map (fun p => (b :: p.1, p.2))

/-- request_line.split(" ", 2). -/
def splitSpace2 (l : Bytes) : List Bytes :=
  match splitSpaceOnce l with
  | none => [l]
  | some (a, rest) =>
    match splitSpaceOnce rest with
    | none => [a, rest]
    | some (b, rest2) => [a, b, rest2]

/-- The header-line loop of _read_http_request: for each line, find the
first colon (lines without one are dropped), lowercase and strip the
name, strip the value; collect the ordered pair list and the
last-value-wins lookup dict. -/
def parseHeaderLines (lines : List Bytes) :
    List (Bytes × Bytes) × List (Bytes × Bytes) :=
  lines.foldl
    (fun acc line =>
      match line.findIdx? (fun b => b = 58) with
      | none => acc
      | some i =>
        let name := blower (bstrip (line.take i))
        let value := bstrip (line.drop (i + 1))
        (acc.1 ++ [(name, value)], dictSet acc.2 name value))
    ([], [])

/-- Outcome of reading a request body. -/
inductive BodyResult where
  | ok (body : Bytes) (rest : Bytes)
  | ioErr
  | valErr
deriving DecidableEq, Repr

theorem pyInt_nil (base : Nat) : pyInt base [] = none := by
  simp [pyInt, bstrip, parseDigits]

theorem readExactly_some_snd_length {n : Nat} {l a r : Bytes}
    (h : readExactly n l = some (a, r)) : r.length ≤ l.length := by
  unfold readExactly at h
  split at h
  · injection h with h1
    cases h1
    simp
  · exact absurd h (by simp)

/-- One unrolling of the chunked-transfer decoding loop of
_read_http_request, with a fuel bound for structural recursion (the
loop consumes at least one byte per iteration, so input.length + 1
fuel is always enough; see readChunksFuel_adequate). -/
def readChunksFuel : Nat → Bytes → Bytes → BodyResult
  | 0, _, _ => .ioErr
  | fuel + 1, input, acc =>
    let p := readLine input
    match pyInt 16 (bstrip p.1) with
    | none => .valErr
    | some sz =>
      if sz = 0 then
        .ok acc (readLine p.2).2
      else if sz < 0 then
        .valErr
      else
        match readExactly sz.toNat p.2 with
        | none => .ioErr
        | some (chunk, r2) => readChunksFuel fuel (readLine r2).2 (acc ++ chunk)

/-- The chunked-transfer decoding loop of _read_http_request: read a
size line, parse it as hex (int(line.strip(), 16) — ValueError on
anything else, including chunk-extensions), stop at size zero after
discarding one trailer line, otherwise read the chunk data and its
trailing line. -/
def readChunks (input : Bytes) (acc : Bytes) : BodyResult :=
  readChunksFuel (input.length + 1) input acc

/-- Fuel does not matter as long as it exceeds the remaining input
length: every loop iteration consumes at least one byte. -/
theorem readChunksFuel_adequate : ∀ (fuel fuel2 : Nat) (input acc : Bytes),
    input.length < fuel → input.length < fuel2 →
    readChunksFuel fuel input acc = readChunksFuel fuel2 input acc := by
  intro fuel
  induction fuel with
  | zero => intro fuel2 input acc h; omega
  | succ fuel ih =>
    intro fuel2 input acc h h2
    match fuel2, h2 with
    | fuel2 + 1, h2 =>
      show readChunksFuel (fuel + 1) input acc = readChunksFuel (fuel2 + 1) input acc
      rw [readChunksFuel, readChunksFuel]
      split
      · rfl
      · rename_i sz hsz
        split
        · rfl
        · split
          · rfl
          · split
            · rfl
            · rename_i chunk r2 hre
              have hne : input ≠ [] := by
                intro hn
                subst hn
                rw [show (readLine ([] : Bytes)).1 = [] from rfl] at hsz
                rw [show bstrip ([] : Bytes) = [] from rfl, pyInt_nil] at hsz
                exact Option.noConfusion hsz
              have hl1 : (readLine input).2.length < input.length :=
                readLine_snd_length_lt input hne
              have hl2 : r2.length ≤ (readLine input).2.length :=
                readExactly_some_snd_length hre
              have hl3 : (readLine r2).2.length ≤ r2.length := readLine_snd_length_le r2
              exact ih fuel2 (readLine r2).2 (acc ++ chunk) (by omega) (by omega)

/-- Body-reading phase of _read_http_request, after the headers:
a truthy Content-Length is parsed with int() (ValueError escapes) and
that many bytes are read; otherwise a Transfer-Encoding containing
"chunked" (case-insensitive) triggers chunked decoding; otherwise the
body is empty.  readexactly with a negative count raises ValueError. -/
def readBody (raw : List (Bytes × Bytes)) (input : Bytes) : BodyResult :=
  let contentLength := dictGet raw (strB "content-length")
  let transferEncoding := dictGetD raw (strB "transfer-encoding") []
  match contentLength with
  | some v =>
    if v ≠ [] then
      match pyInt 10 v with
      | none => .valErr
      | some n =>
        if n < 0 then .valErr
        else
          match readExactly n.toNat input with
          | none => .ioErr
          | some (b, r) => .ok b r
    else if containsSub (strB "chunked") (blower transferEncoding) then
      readChunks input []
    else
      .ok [] input
  | none =>
    if containsSub (strB "chunked") (blower transferEncoding) then
      readChunks input []
    else
      .ok [] input

/-- Result of _read_http_request: None on EOF or an unparseable request
line (noRequest); a parsed request; or an exception escaping the
function — ioErr for asyncio.IncompleteReadError raised while reading
the body (caught later by the connection loop) and valErr for
ValueError raised by int() or by a negative readexactly count (caught
nowhere). -/
inductive ReadResult where
  | noRequest
  | ioErr
  | valErr
  | req (method path version : Bytes)
        (headers raw : List (Bytes × Bytes)) (body : Bytes) (rest : Bytes)
deriving DecidableEq, Repr

/-- The embedding of _read_http_request (src/caddysnake.py lines
424-476): read the header block up to CRLF-CRLF, split the request line
at the first two spaces (anything but three parts is no request), parse
the header lines, then read the body. -/
def read_http_request (input : Bytes) : ReadResult :=
  match readUntil [13, 10, 13, 10] input with
  | none => .noRequest
  | some (headerData, rest) =>
    let lines := splitCRLFSeq (headerData.take (headerData.length - 4))
    match lines with
    | [] => .noRequest
    | requestLine :: headerLines =>
      match splitSpace2 requestLine with
      | [m, p, v] =>
        let hs := parseHeaderLines headerLines
        match readBody hs.2 rest with
        | .ok body r => .req m p v hs.1 hs.2 body r
        | .ioErr => .ioErr
        | .valErr => .valErr
      | _ => .noRequest

/-! ### Hexadecimal rendering and well-formed chunked streams -/

/-- Lowercase hexadecimal digit byte, matching Python format code x. -/
def hexDigitByte (d : Nat) : Nat := if d < 10 then 48 + d else 87 + d

/-- Hex digits with a structural fuel bound (n iterations always
suffice for the value n, since the value shrinks 16-fold each step). -/
def hexBytesCoreFuel : Nat → Nat → Bytes
  | 0, _ => []
  | fuel + 1, n =>
    if n = 0 then [] else hexBytesCoreFuel fuel (n / 16) ++ [hexDigitByte (n % 16)]

/-- Hex digits of a positive number, most significant first. -/
def hexBytesCore (n : Nat) : Bytes := hexBytesCoreFuel n n

/-- The bytes of a Python f-string hex rendering of n. -/
def hexBytes (n : Nat) : Bytes := if n = 0 then [48] else hexBytesCore n

/-- A hexadecimal digit byte of either case. -/
def isHexDigitByte (b : Nat) : Bool :=
  (48 ≤ b && b ≤ 57) || (97 ≤ b && b ≤ 102) || (65 ≤ b && b ≤ 70)

theorem digitVal16_hexDigitByte {d : Nat} (h : d < 16) :
    digitVal16 (hexDigitByte d) = some d := by
  simp only [digitVal16, hexDigitByte]
  split_ifs <;> simp_all <;> omega

theorem isHexDigitByte_hexDigitByte {d : Nat} (h : d < 16) :
    isHexDigitByte (hexDigitByte d) = true := by
  simp only [isHexDigitByte, hexDigitByte]
  split_ifs <;> simp <;> omega

theorem hexBytesCoreFuel_all_hex (fuel : Nat) : ∀ (n : Nat),
    ∀ b ∈ hexBytesCoreFuel fuel n, isHexDigitByte b = true := by
  induction fuel with
  | zero => intro n b hb; simp [hexBytesCoreFuel] at hb
  | succ fuel ih =>
    intro n b hb
    rw [hexBytesCoreFuel] at hb
    split at hb
    · simp at hb
    · rw [List.mem_append] at hb
      rcases hb with hb | hb
      · exact ih (n / 16) b hb
      · simp at hb
        subst hb
        exact isHexDigitByte_hexDigitByte (Nat.mod_lt n (by norm_num))

theorem hexBytesCore_all_hex (n : Nat) :
    ∀ b ∈ hexBytesCore n, isHexDigitByte b = true :=
  hexBytesCoreFuel_all_hex n n

theorem hexBytes_all_hex (n : Nat) : ∀ b ∈ hexBytes n, isHexDigitByte b = true := by
  unfold hexBytes
  split
  · intro b hb
    simp at hb
    subst hb
    decide
  · exact hexBytesCore_all_hex n

theorem hexBytes_ne_nil (n : Nat) : hexBytes n ≠ [] := by
  unfold hexBytes
  split
  · simp
  · rename_i hn
    unfold hexBytesCore
    match n, hn with
    | m + 1, _ =>
      rw [hexBytesCoreFuel]
      simp

theorem isHexDigitByte_not_ws {b : Nat} (h : isHexDigitByte b = true) :
    isWSByte b = false := by
  simp [isHexDigitByte] at h
  simp [isWSByte]
  omega

theorem isHexDigitByte_ne_lf {b : Nat} (h : isHexDigitByte b = true) : b ≠ 10 := by
  simp [isHexDigitByte] at h
  omega

theorem isHexDigitByte_bounds {b : Nat} (h : isHexDigitByte b = true) :
    b ≠ 43 ∧ b ≠ 45 ∧ b ≠ 95 ∧ b ≠ 120 ∧ b ≠ 88 := by
  simp [isHexDigitByte] at h
  omega

theorem dropWhile_eq_self_of_mem {p : Nat → Bool} {l : Bytes}
    (h : ∀ x ∈ l, p x = false) : List.dropWhile p l = l := by
  cases l with
  | nil => rfl
  | cons x xs =>
    rw [List.dropWhile_cons, if_neg (by simp [h x (by simp)])]

theorem bstrip_of_no_ws {a : Bytes} (h : ∀ b ∈ a, isWSByte b = false) :
    bstrip a = a := by
  unfold bstrip
  rw [dropWhile_eq_self_of_mem h,
      dropWhile_eq_self_of_mem (fun x hx => h x (List.mem_reverse.mp hx)),
      List.reverse_reverse]

theorem bstrip_append_crlf {a : Bytes} (hne : a ≠ [])
    (h : ∀ b ∈ a, isWSByte b = false) : bstrip (a ++ [13, 10]) = a := by
  unfold bstrip
  have h1 : List.dropWhile isWSByte (a ++ [13, 10]) = a ++ [13, 10] := by
    cases a with
    | nil => exact absurd rfl hne
    | cons x xs =>
      rw [List.cons_append, List.dropWhile_cons, if_neg (by simp [h x (by simp)])]
  rw [h1, List.reverse_append]
  show (List.dropWhile isWSByte (10 :: 13 :: a.reverse)).reverse = a
  rw [List.dropWhile_cons, if_pos (by simp [isWSByte]),
      List.dropWhile_cons, if_pos (by simp [isWSByte]),
      dropWhile_eq_self_of_mem (fun x hx => h x (List.mem_reverse.mp hx)),
      List.reverse_reverse]

theorem readLine_no_lf_append {a : Bytes} (h : ∀ b ∈ a, b ≠ 10) (r : Bytes) :
    readLine (a ++ 10 :: r) = (a ++ [10], r) := by
  induction a with
  | nil => simp [readLine]
  | cons x xs ih =>
    have hx : x ≠ 10 := h x (by simp)
    have ih2 := ih (fun b hb => h b (by simp [hb]))
    simp only [List.cons_append, readLine, if_neg hx, List.append_eq] at *
    rw [ih2]

theorem readExactly_append (l r : Bytes) :
    readExactly l.length (l ++ r) = some (l, r) := by
  simp [readExactly, List.take_left, List.drop_left]

theorem parseDigitsAux_eq_foldl (base : Nat) (dv : Nat → Option Nat) (l : Bytes)
    (h : ∀ b ∈ l, b ≠ 95 ∧ (dv b).isSome) (acc : Nat) :
    parseDigitsAux base dv l acc =
      some (l.foldl (fun a b => a * base + (dv b).getD 0) acc) := by
  induction l generalizing acc with
  | nil => simp [parseDigitsAux]
  | cons x xs ih =>
    obtain ⟨h95, hdv⟩ := h x (by simp)
    rw [Option.isSome_iff_exists] at hdv
    obtain ⟨d, hd⟩ := hdv
    rw [parseDigitsAux.eq_def]
    simp only [if_neg h95, hd, List.foldl_cons]
    rw [ih (fun b hb => h b (by simp [hb]))]
    simp [hd]

theorem parseDigits_eq_foldl (base : Nat) (dv : Nat → Option Nat) {l : Bytes}
    (hne : l ≠ []) (h : ∀ b ∈ l, b ≠ 95 ∧ (dv b).isSome) :
    parseDigits base dv l =
      some (l.foldl (fun a b => a * base + (dv b).getD 0) 0) := by
  cases l with
  | nil => exact absurd rfl hne
  | cons x xs =>
    obtain ⟨h95, hdv⟩ := h x (by simp)
    rw [Option.isSome_iff_exists] at hdv
    obtain ⟨d, hd⟩ := hdv
    simp only [parseDigits, hd, List.foldl_cons]
    rw [parseDigitsAux_eq_foldl base dv xs (fun b hb => h b (by simp [hb]))]
    simp [hd]

/-- The numeric value of a string of hex digit bytes. -/
def hexFold (l : Bytes) : Nat :=
  l.foldl (fun a b => a * 16 + (digitVal16 b).getD 0) 0

theorem digitVal16_isSome_of_hex {b : Nat} (h : isHexDigitByte b = true) :
    (digitVal16 b).isSome = true := by
  simp only [isHexDigitByte, Bool.or_eq_true, Bool.and_eq_true, decide_eq_true_eq] at h
  unfold digitVal16
  split_ifs <;> simp_all <;> omega

/-- int(l, 16) on a nonempty pure-hex-digit byte string succeeds with
the base-16 value of the digits. -/
theorem pyInt16_of_hex_digits {l : Bytes} (hne : l ≠ [])
    (h : ∀ b ∈ l, isHexDigitByte b = true) :
    pyInt 16 l = some (hexFold l : Nat) := by
  have hbs : bstrip l = l :=
    bstrip_of_no_ws (fun b hb => isHexDigitByte_not_ws (h b hb))
  obtain ⟨x, xs, rfl⟩ : ∃ x xs, l = x :: xs := by
    cases l with
    | nil => exact absurd rfl hne
    | cons x xs => exact ⟨x, xs, rfl⟩
  have hx := isHexDigitByte_bounds (h x (by simp))
  have h43 : x ≠ 43 := hx.1
  have h45 : x ≠ 45 := hx.2.1
  have hpre : ¬ (x = 48 ∧ (xs.head? = some 120 ∨ xs.head? = some 88)) := by
    rintro ⟨-, hy⟩
    cases xs with
    | nil => simp at hy
    | cons y ys =>
      have hy2 := isHexDigitByte_bounds (h y (by simp))
      simp at hy
      omega
  have hparse := parseDigits_eq_foldl 16 digitVal16 (l := x :: xs) (by simp)
    (fun b hb => ⟨(isHexDigitByte_bounds (h b hb)).2.2.1, digitVal16_isSome_of_hex (h b hb)⟩)
  simp only [pyInt, hbs]
  simp [h43, h45, hpre, hparse, hexFold]

theorem hexBytesCoreFuel_foldl (fuel : Nat) : ∀ (n acc : Nat), n ≤ fuel →
    (hexBytesCoreFuel fuel n).foldl (fun a b => a * 16 + (digitVal16 b).getD 0) acc =
      acc * 16 ^ (hexBytesCoreFuel fuel n).length + n := by
  induction fuel with
  | zero =>
    intro n acc h
    interval_cases n
    simp [hexBytesCoreFuel]
  | succ fuel ih =>
    intro n acc h
    rw [hexBytesCoreFuel]
    split
    · rename_i hn
      subst hn
      simp
    · rename_i hn
      have hd : n / 16 ≤ fuel := by omega
      rw [List.foldl_append, ih (n / 16) acc hd]
      have hlen : (hexBytesCoreFuel fuel (n / 16) ++ [hexDigitByte (n % 16)]).length =
          (hexBytesCoreFuel fuel (n / 16)).length + 1 := by simp
      rw [hlen]
      simp only [List.foldl_cons, List.foldl_nil,
        digitVal16_hexDigitByte (Nat.mod_lt n (by norm_num)), Option.getD_some]
      rw [pow_succ, ← mul_assoc]
      omega

theorem hexFold_hexBytes (n : Nat) : hexFold (hexBytes n) = n := by
  unfold hexBytes hexFold
  split
  · rename_i hn
    subst hn
    decide
  · unfold hexBytesCore
    rw [hexBytesCoreFuel_foldl n n 0 (le_refl n)]
    simp

theorem pyInt16_hexBytes (n : Nat) : pyInt 16 (hexBytes n) = some (n : Int) := by
  rw [pyInt16_of_hex_digits (hexBytes_ne_nil n) (hexBytes_all_hex n), hexFold_hexBytes]
  simp

/-! ### Well-formed chunked request streams -/

/-- Wire form of one nonzero-size chunk: hex size, CRLF, data, CRLF. -/
def encodeChunk (b : Bytes) : Bytes := hexBytes b.length ++ [13, 10] ++ b ++ [13, 10]

/-- Wire form of a chunked body: the chunks, the zero chunk's size
line, then one arbitrary LF-terminated line (content tl, which must
not contain an LF) — the single line the reader discards after the
zero chunk.  The plain terminator 0 CRLF CRLF is the instance
tl = [13]. -/
def encodeChunkedWire (chunks : List Bytes) (tl : Bytes) : Bytes :=
  (chunks.map encodeChunk).flatten ++ strB "0\r\n" ++ tl ++ [10]

theorem readLine_hex_line (n : Nat) (tail : Bytes) :
    readLine (hexBytes n ++ [13, 10] ++ tail) = (hexBytes n ++ [13, 10], tail) := by
  have h : ∀ b ∈ hexBytes n ++ [13], b ≠ 10 := by
    intro b hb
    rcases List.mem_append.mp hb with hb | hb
    · exact isHexDigitByte_ne_lf (hexBytes_all_hex n b hb)
    · simp at hb
      omega
  have := readLine_no_lf_append h tail
  simpa using this

theorem bstrip_hex_line (n : Nat) : bstrip (hexBytes n ++ [13, 10]) = hexBytes n :=
  bstrip_append_crlf (hexBytes_ne_nil n)
    (fun b hb => isHexDigitByte_not_ws (hexBytes_all_hex n b hb))

/-- Decoding a well-formed chunked stream of nonempty chunks collects
exactly the chunk contents and stops right after consuming one line
past the zero chunk's size line. -/
theorem readChunks_encodeChunkedWire (chunks : List Bytes)
    (h : ∀ c ∈ chunks, c ≠ []) (tl : Bytes) (htl : ∀ b ∈ tl, b ≠ 10)
    (rest : Bytes) : ∀ acc : Bytes,
    readChunks (encodeChunkedWire chunks tl ++ rest) acc =
      .ok (acc ++ chunks.flatten) rest := by
  induction chunks with
  | nil =>
    intro acc
    have h1 : readLine (encodeChunkedWire [] tl ++ rest) =
        ([48, 13, 10], tl ++ 10 :: rest) := by
      have he : encodeChunkedWire [] tl ++ rest =
          [48, 13] ++ 10 :: (tl ++ 10 :: rest) := by
        simp [encodeChunkedWire, strB]
      rw [he, readLine_no_lf_append (by intro b hb; simp at hb; omega)]
      simp
    have h2 : pyInt 16 (bstrip [48, 13, 10]) = some 0 := by decide
    have h3 : readLine (tl ++ 10 :: rest) = (tl ++ [10], rest) :=
      readLine_no_lf_append htl rest
    rw [readChunks, readChunksFuel, h1]
    simp [h2, h3]
  | cons c cs ih =>
    intro acc
    have hc : c ≠ [] := h c (by simp)
    have hstream : encodeChunkedWire (c :: cs) tl ++ rest =
        hexBytes c.length ++ [13, 10] ++
          (c ++ ([13, 10] ++ (encodeChunkedWire cs tl ++ rest))) := by
      simp [encodeChunkedWire, encodeChunk]
    have hlen : ¬ ((c.length : Int) = 0) := by
      simpa using fun hcl => hc (List.eq_nil_of_length_eq_zero hcl)
    have hre : readExactly ((c.length : Int)).toNat
        (c ++ ([13, 10] ++ (encodeChunkedWire cs tl ++ rest))) =
        some (c, [13, 10] ++ (encodeChunkedWire cs tl ++ rest)) := by
      rw [show ((c.length : Int)).toNat = c.length from by simp]
      exact readExactly_append c _
    have h3 : (readLine ([13, 10] ++ (encodeChunkedWire cs tl ++ rest))).2 =
        encodeChunkedWire cs tl ++ rest := by
      have h0 := readLine_no_lf_append (a := [13]) (by intro b hb; simp at hb; omega)
        (encodeChunkedWire cs tl ++ rest)
      simp only [List.cons_append, List.nil_append] at h0 ⊢
      rw [h0]
    rw [readChunks, hstream, readChunksFuel]
    rw [readLine_hex_line]
    simp only [bstrip_hex_line, pyInt16_hexBytes]
    rw [if_neg hlen, if_neg (by omega), hre]
    simp only [h3]
    have hadq := readChunksFuel_adequate
      (hexBytes c.length ++ [13, 10] ++
        (c ++ ([13, 10] ++ (encodeChunkedWire cs tl ++ rest)))).length
      ((encodeChunkedWire cs tl ++ rest).length + 1)
      (encodeChunkedWire cs tl ++ rest) (acc ++ c)
      (by
        have := hexBytes_ne_nil c.length
        have h5 : 1 ≤ (hexBytes c.length).length := by
          cases he : hexBytes c.length with
          | nil => exact absurd he this
          | cons x xs => simp
        simp
        omega)
      (by omega)
    rw [hadq]
    rw [show readChunksFuel ((encodeChunkedWire cs tl ++ rest).length + 1)
      (encodeChunkedWire cs tl ++ rest) (acc ++ c) =
      readChunks (encodeChunkedWire cs tl ++ rest) (acc ++ c) from rfl]
    rw [ih (fun d hd => h d (by simp [hd])) (acc ++ c)]
    simp

/-- A chunk-size line that int(-, 16) cannot parse — one carrying a
chunk-extension, or any non-hex bytes — makes the decoding loop raise
ValueError immediately instead of discarding the line. -/
theorem readChunks_valErr {input : Bytes}
    (h : pyInt 16 (bstrip (readLine input).1) = none) (acc : Bytes) :
    readChunks input acc = .valErr := by
  rw [readChunks, readChunksFuel]
  simp [h]

/-! ### Claim C1: body determination of the request reader -/

theorem readBody_content_length {raw : List (Bytes × Bytes)} {v : Bytes} {n : Nat}
    (hv : dictGet raw (strB "content-length") = some v) (hne : v ≠ [])
    (hn : pyInt 10 v = some (n : Int)) (input : Bytes) (hlen : n ≤ input.length) :
    readBody raw input = .ok (input.take n) (input.drop n) := by
  simp only [readBody, hv, if_pos hne, hn]
  rw [if_neg (by omega)]
  rw [show ((n : Int)).toNat = n from by simp]
  unfold readExactly
  rw [if_pos hlen]

theorem readBody_chunked {raw : List (Bytes × Bytes)}
    (hcl : dictGet raw (strB "content-length") = none ∨
           dictGet raw (strB "content-length") = some [])
    (hte : containsSub (strB "chunked")
      (blower (dictGetD raw (strB "transfer-encoding") [])) = true)
    {chunks : List Bytes} (hc : ∀ c ∈ chunks, c ≠ [])
    {tl : Bytes} (htl : ∀ b ∈ tl, b ≠ 10) (rest : Bytes) :
    readBody raw (encodeChunkedWire chunks tl ++ rest) = .ok chunks.flatten rest := by
  have hrc := readChunks_encodeChunkedWire chunks hc tl htl rest []
  rcases hcl with hcl | hcl
  · simp only [readBody, hcl, if_pos hte, hrc]
    simp
  · simp only [readBody, hcl, if_neg (by simp : ¬ (([] : Bytes) ≠ [])), if_pos hte, hrc]
    simp

theorem readBody_chunked_valErr {raw : List (Bytes × Bytes)}
    (hcl : dictGet raw (strB "content-length") = none ∨
           dictGet raw (strB "content-length") = some [])
    (hte : containsSub (strB "chunked")
      (blower (dictGetD raw (strB "transfer-encoding") [])) = true)
    {input : Bytes}
    (hbad : pyInt 16 (bstrip (readLine input).1) = none) :
    readBody raw input = .valErr := by
  have hrc := readChunks_valErr hbad []
  rcases hcl with hcl | hcl
  · simp only [readBody, hcl, if_pos hte, hrc]
  · simp only [readBody, hcl, if_neg (by simp : ¬ (([] : Bytes) ≠ [])), if_pos hte, hrc]

theorem readBody_no_body {raw : List (Bytes × Bytes)}
    (hcl : dictGet raw (strB "content-length") = none ∨
           dictGet raw (strB "content-length") = some [])
    (hte : containsSub (strB "chunked")
      (blower (dictGetD raw (strB "transfer-encoding") [])) = false)
    (input : Bytes) :
    readBody raw input = .ok [] input := by
  rcases hcl with hcl | hcl
  · simp only [readBody, hcl, hte]
    simp
  · simp only [readBody, hcl, if_neg (by simp : ¬ (([] : Bytes) ≠ [])), hte]
    simp

/-- The S3 scenario input of the specification. -/
def s3Request : Bytes :=
  strB "POST / HTTP/1.1\r\nHost:x\r\nTransfer-Encoding:chunked\r\n\r\n5\r\nhello\r\n6\r\n world\r\n0\r\n\r\n"

/-- A chunked body whose first chunk-size line carries a
chunk-extension ("5;x=1"), which int(line.strip(), 16) cannot parse. -/
def c1ExtensionBody : Bytes := strB "5;x=1\r\nhello\r\n0\r\n\r\n"

/-- A chunked request followed by a trailer section: one trailer field
line and the terminating empty line after the zero chunk. -/
def c1TrailerRequest : Bytes :=
  strB "POST / HTTP/1.1\r\nTransfer-Encoding: chunked\r\n\r\n5\r\nhello\r\n0\r\nX-Trailer: v\r\n\r\n"

/-- C1 counterexample: the claimed "discarding trailing chunk-extensions
and trailers" fails on both counts.  (1) A chunk-size line with a
chunk-extension is not discarded: body reading raises ValueError
instead of decoding the 5-byte body "hello".  (2) A trailer section
after the zero chunk is not discarded: exactly one line after the zero
chunk is consumed, so the trailer section's terminating CRLF is left
unread in the stream (leftover [13, 10]) rather than discarded. -/
theorem C1_counterexample_extension_trailer :
    readBody [(strB "transfer-encoding", strB "chunked")] c1ExtensionBody = .valErr ∧
    readBody [(strB "transfer-encoding", strB "chunked")] c1ExtensionBody ≠
      .ok (strB "hello") [] ∧
    read_http_request c1TrailerRequest =
      .req (strB "POST") (strB "/") (strB "HTTP/1.1")
        [(strB "transfer-encoding", strB "chunked")]
        [(strB "transfer-encoding", strB "chunked")]
        (strB "hello") [13, 10] := by
  refine ⟨by decide, by decide, by decide⟩

/-- C1 (amended): the request reader determines the body as follows:
with a (nonempty, integer-valued) Content-Length of n and at least n
bytes available it reads exactly n body bytes; otherwise, when the
Transfer-Encoding value contains "chunked" case-insensitively, it
decodes chunks whose size lines are plain hex until a zero-size chunk
and then discards exactly one further line (not a whole trailer
section), while a size line that is not plain hex — for example one
carrying a chunk-extension — raises ValueError instead of being
discarded; otherwise the body is empty.  The S3 input with chunks
"5 hello" and "6 ' world'" yields the 11-byte body "hello world". -/
theorem C1_request_body_determination :
    (∀ (raw : List (Bytes × Bytes)) (v : Bytes) (n : Nat) (input : Bytes),
      dictGet raw (strB "content-length") = some v → v ≠ [] →
      pyInt 10 v = some (n : Int) → n ≤ input.length →
      readBody raw input = .ok (input.take n) (input.drop n)) ∧
    (∀ (raw : List (Bytes × Bytes)) (chunks : List Bytes) (tl rest : Bytes),
      (dictGet raw (strB "content-length") = none ∨
       dictGet raw (strB "content-length") = some []) →
      containsSub (strB "chunked")
        (blower (dictGetD raw (strB "transfer-encoding") [])) = true →
      (∀ c ∈ chunks, c ≠ []) → (∀ b ∈ tl, b ≠ 10) →
      readBody raw (encodeChunkedWire chunks tl ++ rest) = .ok chunks.flatten rest) ∧
    (∀ (raw : List (Bytes × Bytes)) (input : Bytes),
      (dictGet raw (strB "content-length") = none ∨
       dictGet raw (strB "content-length") = some []) →
      containsSub (strB "chunked")
        (blower (dictGetD raw (strB "transfer-encoding") [])) = true →
      pyInt 16 (bstrip (readLine input).1) = none →
      readBody raw input = .valErr) ∧
    (∀ (raw : List (Bytes × Bytes)) (input : Bytes),
      (dictGet raw (strB "content-length") = none ∨
       dictGet raw (strB "content-length") = some []) →
      containsSub (strB "chunked")
        (blower (dictGetD raw (strB "transfer-encoding") [])) = false →
      readBody raw input = .ok [] input) ∧
    (read_http_request s3Request =
      .req (strB "POST") (strB "/") (strB "HTTP/1.1")
        [(strB "host", strB "x"), (strB "transfer-encoding", strB "chunked")]
        [(strB "host", strB "x"), (strB "transfer-encoding", strB "chunked")]
        (strB "hello world") [] ∧
      (strB "hello world").length = 11) := by
  refine ⟨?_, ?_, ?_, ?_, ?_⟩
  · intro raw v n input hv hne hn hlen
    exact readBody_content_length hv hne hn input hlen
  · intro raw chunks tl rest hcl hte hc htl
    exact readBody_chunked hcl hte hc htl rest
  · intro raw input hcl hte hbad
    exact readBody_chunked_valErr hcl hte hbad
  · intro raw input hcl hte
    exact readBody_no_body hcl hte input
  · constructor
    · decide
    · decide

/-- Witness for C1 at concrete inputs: a Content-Length request body, a
chunked body whose single discarded line after the zero chunk is a
trailer field line, a ValueError on an extension-bearing size line, and
an empty body. -/
theorem C1_request_body_determination_witness :
    readBody [(strB "content-length", strB "5")] (strB "helloXY") =
      .ok (strB "hello") (strB "XY") ∧
    readBody [(strB "transfer-encoding", strB "chunked")]
      (encodeChunkedWire [strB "hi"] (strB "T: v\r") ++ strB "Z") =
      .ok (strB "hi") (strB "Z") ∧
    readBody [(strB "transfer-encoding", strB "chunked")]
      (strB "5;x=1\r\nhello\r\n0\r\n\r\n") = .valErr ∧
    readBody [(strB "host", strB "x")] (strB "leftover") = .ok [] (strB "leftover") := by
  refine ⟨?_, ?_, ?_, ?_⟩
  · have h := C1_request_body_determination.1 [(strB "content-length", strB "5")]
      (strB "5") 5 (strB "helloXY") (by decide) (by decide) (by decide) (by decide)
    simpa using h
  · have h := C1_request_body_determination.2.1 [(strB "transfer-encoding", strB "chunked")]
      [strB "hi"] (strB "T: v\r") (strB "Z") (by decide) (by decide) (by decide) (by decide)
    simpa using h
  · exact C1_request_body_determination.2.2.1 [(strB "transfer-encoding", strB "chunked")]
      (strB "5;x=1\r\nhello\r\n0\r\n\r\n") (by decide) (by decide) (by decide)
  · exact C1_request_body_determination.2.2.2.1 [(strB "host", strB "x")]
      (strB "leftover") (by decide) (by decide)

/-! ### Claim C3: malformed requests at the connection loop -/

/-- Connection-level outcome of one loop iteration: the response bytes
written before dispatch, whether the writer is closed (the finally
block always closes it), and whether an exception propagates out of
_handle_asgi_connection (its except clause catches only
IncompleteReadError, ConnectionError, ConnectionResetError and OSError,
so a ValueError raised by int() escapes). -/
structure ConnOutcome where
  bytesWritten : Bytes
  closed : Bool
  escaped : Bool
deriving DecidableEq, Repr

/-- Pre-dispatch phase of _handle_asgi_connection (lines 725-795):
none means a request was parsed and dispatch proceeds (the outcome then
depends on the application); otherwise the loop ends with the given
connection outcome. -/
def handle_asgi_connection_read (input : Bytes) : Option ConnOutcome :=
  match read_http_request input with
  | .noRequest => some ⟨[], true, false⟩
  | .ioErr => some ⟨[], true, false⟩
  | .valErr => some ⟨[], true, true⟩
  | .req _ _ _ _ _ _ _ => none

/-- A chunked request whose chunk-size line carries a chunk-extension,
which int(line, 16) cannot parse. -/
def chunkExtensionRequest : Bytes :=
  strB "POST / HTTP/1.1\r\nTransfer-Encoding: chunked\r\n\r\n5;ext=1\r\nhello\r\n0\r\n\r\n"

/-- C3 counterexample: on a disallowed chunk length (a chunk-size line
with a chunk-extension) the parse raises ValueError, and that exception
escapes the connection loop (escaped = true), contrary to the claim
that no exception escapes; the connection is still closed and no
response bytes are written. -/
theorem C3_counterexample_chunk_extension_escapes :
    read_http_request chunkExtensionRequest = .valErr ∧
    handle_asgi_connection_read chunkExtensionRequest = some ⟨[], true, true⟩ := by
  constructor
  · decide
  · decide

/-- C3 amended: a non-parseable request line or impossible header block
yields no-request and the loop closes silently with no bytes written;
an IncompleteReadError while reading the body is caught and also closes
silently; but a disallowed chunk length or non-integer Content-Length
raises ValueError which escapes the loop — the finally block still
closes the connection and no response bytes are written. -/
theorem C3_malformed_request_handling :
    (∀ input : Bytes, read_http_request input = .noRequest →
      handle_asgi_connection_read input = some ⟨[], true, false⟩) ∧
    (∀ input : Bytes, read_http_request input = .ioErr →
      handle_asgi_connection_read input = some ⟨[], true, false⟩) ∧
    (∀ input : Bytes, read_http_request input = .valErr →
      handle_asgi_connection_read input = some ⟨[], true, true⟩) ∧
    read_http_request (strB "BADLINE\r\n\r\n") = .noRequest ∧
    read_http_request (strB "POST / HTTP/1.1\r\nContent-Length: xyz\r\n\r\n") = .valErr := by
  refine ⟨?_, ?_, ?_, ?_, ?_⟩
  · intro input h
    simp [handle_asgi_connection_read, h]
  · intro input h
    simp [handle_asgi_connection_read, h]
  · intro input h
    simp [handle_asgi_connection_read, h]
  · decide
  · decide

/-- Witness for the amended C3 at concrete malformed inputs. -/
theorem C3_malformed_request_handling_witness :
    handle_asgi_connection_read (strB "BADLINE\r\n\r\n") = some ⟨[], true, false⟩ ∧
    handle_asgi_connection_read (strB "POST / HTTP/1.1\r\nContent-Length: 5\r\n\r\nab") =
      some ⟨[], true, false⟩ ∧
    handle_asgi_connection_read (strB "POST / HTTP/1.1\r\nContent-Length: xyz\r\n\r\n") =
      some ⟨[], true, true⟩ := by
  refine ⟨?_, ?_, ?_⟩
  · exact C3_malformed_request_handling.1 _ (by decide)
  · exact C3_malformed_request_handling.2.1 _ (by decide)
  · exact C3_malformed_request_handling.2.2.1 _ (by decide)

/-! ### Claim C9: the status line cache -/

/-- The IANA reason phrase of http.HTTPStatus(code).phrase, with the
_status_phrase fallback "Unknown" where HTTPStatus raises ValueError
(any code that is not a member, including every negative code). -/
def statusPhrase (code : Int) : String :=
  match code with
  | 100 => "Continue"
  | 101 => "Switching Protocols"
  | 102 => "Processing"
  | 103 => "Early Hints"
  | 200 => "OK"
  | 201 => "Created"
  | 202 => "Accepted"
  | 203 => "Non-Authoritative Information"
  | 204 => "No Content"
  | 205 => "Reset Content"
  | 206 => "Partial Content"
  | 207 => "Multi-Status"
  | 208 => "Already Reported"
  | 226 => "IM Used"
  | 300 => "Multiple Choices"
  | 301 => "Moved Permanently"
  | 302 => "Found"
  | 303 => "See Other"
  | 304 => "Not Modified"
  | 305 => "Use Proxy"
  | 307 => "Temporary Redirect"
  | 308 => "Permanent Redirect"
  | 400 => "Bad Request"
  | 401 => "Unauthorized"
  | 402 => "Payment Required"
  | 403 => "Forbidden"
  | 404 => "Not Found"
  | 405 => "Method Not Allowed"
  | 406 => "Not Acceptable"
  | 407 => "Proxy Authentication Required"
  | 408 => "Request Timeout"
  | 409 => "Conflict"
  | 410 => "Gone"
  | 411 => "Length Required"
  | 412 => "Precondition Failed"
  | 413 => "Request Entity Too Large"
  | 414 => "Request-URI Too Long"
  | 415 => "Unsupported Media Type"
  | 416 => "Requested Range Not Satisfiable"
  | 417 => "Expectation Failed"
  | 418 => "I\x27m a Teapot"
  | 421 => "Misdirected Request"
  | 422 => "Unprocessable Entity"
  | 423 => "Locked"
  | 424 => "Failed Dependency"
  | 425 => "Too Early"
  | 426 => "Upgrade Required"
  | 428 => "Precondition Required"
  | 429 => "Too Many Requests"
  | 431 => "Request Header Fields Too Large"
  | 451 => "Unavailable For Legal Reasons"
  | 500 => "Internal Server Error"
  | 501 => "Not Implemented"
  | 502 => "Bad Gateway"
  | 503 => "Service Unavailable"
  | 504 => "Gateway Timeout"
  | 505 => "HTTP Version Not Supported"
  | 506 => "Variant Also Negotiates"
  | 507 => "Insufficient Storage"
  | 508 => "Loop Detected"
  | 510 => "Not Extended"
  | 511 => "Network Authentication Required"
  | _ => "Unknown"

/-- The pre-encoded status line bytes built by _get_status_line on a
cache miss. -/
def statusLineBytes (code : Int) : Bytes :=
  strB ("HTTP/1.1 " ++ toString code ++ " " ++ statusPhrase code ++ "\r\n")

/-- The embedding of _get_status_line over an explicit cache state (the
process-wide _STATUS_LINE_CACHE dict): the line and the updated cache. -/
def get_status_line (cache : List (Int × Bytes)) (code : Int) :
    Bytes × List (Int × Bytes) :=
  match cache.find? (fun p => p.1 == code) with
  | some p => (p.2, cache)
  | none =>
    let line := statusLineBytes code
    (line, cache ++ [(code, line)])

/-- The cache contents after a sequence of status-line lookups. -/
def processStatusCodes (codes : List Int) (cache : List (Int × Bytes)) :
    List (Int × Bytes) :=
  codes.foldl (fun c code => (get_status_line c code).2) cache

/-- First-occurrence deduplication of a code sequence. -/
def firstDedup (codes : List Int) : List Int :=
  codes.foldl (fun acc c => if acc.contains c then acc else acc ++ [c]) []

theorem find?_map_line_none {ks : List Int} {c : Int} (h : c ∉ ks) :
    (ks.map (fun k => (k, statusLineBytes k))).find? (fun p => p.1 == c) = none := by
  induction ks with
  | nil => rfl
  | cons k ks ih =>
    rw [List.map_cons,
      List.find?_cons_of_neg _ (by simp; intro hkc; exact h (by simp [hkc])),
      ih (fun hc => h (by simp [hc]))]

theorem find?_map_line_isSome {ks : List Int} {c : Int} (h : c ∈ ks) :
    ((ks.map (fun k => (k, statusLineBytes k))).find? (fun p => p.1 == c)).isSome = true := by
  induction ks with
  | nil => simp at h
  | cons k ks ih =>
    by_cases hk : k = c
    · rw [List.map_cons, List.find?_cons_of_pos _ (by simp [hk])]
      rfl
    · rw [List.map_cons, List.find?_cons_of_neg _ (by simp [hk])]
      refine ih ?_
      rcases List.mem_cons.mp h with h1 | h1
      · exact absurd h1.symm hk
      · exact h1

theorem processStatusCodes_closed_form (codes : List Int) : ∀ ks : List Int,
    processStatusCodes codes (ks.map (fun k => (k, statusLineBytes k))) =
      (codes.foldl (fun acc c => if acc.contains c then acc else acc ++ [c]) ks).map
        (fun k => (k, statusLineBytes k)) := by
  induction codes with
  | nil => intro ks; rfl
  | cons c cs ih =>
    intro ks
    show processStatusCodes cs
        ((get_status_line (ks.map (fun k => (k, statusLineBytes k))) c).2) = _
    by_cases hk : c ∈ ks
    · have hs := find?_map_line_isSome hk
      rw [Option.isSome_iff_exists] at hs
      obtain ⟨p, hp⟩ := hs
      rw [show (get_status_line (ks.map (fun k => (k, statusLineBytes k))) c).2 =
          ks.map (fun k => (k, statusLineBytes k)) from by
        simp [get_status_line, hp]]
      rw [ih ks]
      simp [hk]
    · have hn := find?_map_line_none hk
      rw [show (get_status_line (ks.map (fun k => (k, statusLineBytes k))) c).2 =
          (ks ++ [c]).map (fun k => (k, statusLineBytes k)) from by
        simp [get_status_line, hn]]
      rw [ih (ks ++ [c])]
      simp [hk]

theorem foldl_dedup_of_nodup (codes : List Int) : ∀ acc : List Int,
    codes.Nodup → (∀ c ∈ codes, c ∉ acc) →
    codes.foldl (fun acc c => if acc.contains c then acc else acc ++ [c]) acc =
      acc ++ codes := by
  induction codes with
  | nil => intro acc _ _; simp
  | cons c cs ih =>
    intro acc hnd hdisj
    rw [List.foldl_cons, if_neg (by simp [hdisj c (by simp)])]
    rw [ih (acc ++ [c]) (List.Nodup.of_cons hnd) (by
      intro d hd hmem
      rcases List.mem_append.mp hmem with hm | hm
      · exact hdisj d (by simp [hd]) hm
      · simp at hm
        subst hm
        exact (List.nodup_cons.mp hnd).1 hd)]
    simp

/-- C9 counterexample: 1001 distinct status codes create 1001 cache
entries, so the cache is not bounded by 1000 entries. -/
theorem C9_counterexample_cache_unbounded :
    (processStatusCodes ((List.range 1001).map Int.ofNat) []).length = 1001 ∧
    ¬ ((processStatusCodes ((List.range 1001).map Int.ofNat) []).length ≤ 1000) := by
  have h0 : processStatusCodes ((List.range 1001).map Int.ofNat) [] =
      (firstDedup ((List.range 1001).map Int.ofNat)).map
        (fun k => (k, statusLineBytes k)) := by
    have := processStatusCodes_closed_form ((List.range 1001).map Int.ofNat) []
    simpa [firstDedup] using this
  have h1 : firstDedup ((List.range 1001).map Int.ofNat) =
      (List.range 1001).map Int.ofNat := by
    unfold firstDedup
    rw [foldl_dedup_of_nodup _ []
      ((List.nodup_range 1001).map (fun a b hab => Int.ofNat.inj hab))
      (fun c _ hmem => by simp at hmem)]
    simp
  rw [h0, h1]
  simp

/-- C9 amended: the status-line cache holds exactly one entry per
distinct requested code, in first-request order, each entry being the
pre-encoded bytes "HTTP/1.1 code reason CRLF"; it is finite for every
finite request sequence but is not bounded by 1000 entries. -/
theorem C9_status_line_cache_shape (codes : List Int) :
    processStatusCodes codes [] =
      (firstDedup codes).map (fun k => (k, statusLineBytes k)) ∧
    (processStatusCodes codes []).length = (firstDedup codes).length := by
  have h := processStatusCodes_closed_form codes []
  simp only [List.map_nil] at h
  rw [show (firstDedup codes) = codes.foldl
    (fun acc c => if acc.contains c then acc else acc ++ [c]) [] from rfl]
  exact ⟨h, by rw [h]; simp⟩

/-! ### Claim C2: event-driven (ASGI) HTTP response framing

The send callable of _handle_asgi_http (lines 488-578), embedded as a
pure transition function from handler state and message to new state
plus the bytes written by that call. -/

/-- Mutable state of the send closure: response_started,
response_complete, use_chunked, pending_headers, has_cl, has_te. -/
structure AsgiHttpState where
  response_started : Bool
  response_complete : Bool
  use_chunked : Bool
  pending_headers : Option Bytes
  has_cl : Bool
  has_te : Bool
deriving DecidableEq, Repr

/-- Initial send state of a request. -/
def asgiHttpInit : AsgiHttpState := ⟨false, false, false, none, false, false⟩

/-- The ASGI messages handled by send. -/
inductive AsgiMsg where
  | start (status : Int) (headers : List (Bytes × Bytes))
  | body (data : Bytes) (more : Bool)
deriving DecidableEq, Repr

/-- Header serialization loop of the http.response.start branch:
the buffer of name-colon-space-value-CRLF lines plus the two flags
recording whether a Content-Length or Transfer-Encoding name was seen
(compared after lowercasing). -/
def procRespHeaders (hs : List (Bytes × Bytes)) : Bytes × Bool × Bool :=
  hs.foldl
    (fun acc h =>
      let low := blower h.1
      (acc.1 ++ h.1 ++ strB ": " ++ h.2 ++ CRLF,
       acc.2.1 || (low == strB "content-length"),
       acc.2.2 || (low == strB "transfer-encoding")))
    ([], false, false)

/-- Chunk encoding of one body fragment as written by the handler:
nothing for an empty fragment, hex length, CRLF, data, CRLF otherwise. -/
def chunkEnc (data : Bytes) : Bytes :=
  if data = [] then [] else hexBytes data.length ++ CRLF ++ data ++ CRLF

/-- One send(message) call: next state and bytes written. -/
def asgiSend (st : AsgiHttpState) (m : AsgiMsg) : AsgiHttpState × Bytes :=
  match m with
  | .start status hs =>
    let ph := procRespHeaders hs
    (⟨true, st.response_complete, st.use_chunked,
      some (statusLineBytes status ++ ph.1),
      st.has_cl || ph.2.1, st.has_te || ph.2.2⟩, [])
  | .body data more =>
    match st.pending_headers with
    | some hdr =>
      let auto : Bytes × Bool :=
        if !st.has_cl && !st.has_te then
          if !more then
            (strB "Content-Length: " ++ strB (toString data.length) ++ CRLF,
             st.use_chunked)
          else
            (strB "transfer-encoding: chunked\r\n", true)
        else ([], st.use_chunked)
      let buf := hdr ++ auto.1 ++ CRLF
      let out :=
        if auto.2 then
          buf ++ chunkEnc data ++ (if !more then strB "0\r\n\r\n" else [])
        else
          buf ++ data
      (⟨st.response_started, st.response_complete || !more, auto.2, none,
        st.has_cl, st.has_te⟩, out)
    | none =>
      let out :=
        if st.use_chunked then
          chunkEnc data ++ (if !more then strB "0\r\n\r\n" else [])
        else
          data
      (⟨st.response_started, st.response_complete || !more, st.use_chunked,
        none, st.has_cl, st.has_te⟩, out)

/-- Bytes produced by a sequence of send calls, starting from a given
state. -/
def asgiRun (st : AsgiHttpState) : List AsgiMsg → Bytes
  | [] => []
  | m :: ms =>
    let r := asgiSend st m
    r.2 ++ asgiRun r.1 ms

theorem procRespHeaders_flags_aux (hs : List (Bytes × Bytes))
    (h : ∀ p ∈ hs, blower p.1 ≠ strB "content-length" ∧
      blower p.1 ≠ strB "transfer-encoding") :
    ∀ acc : Bytes × Bool × Bool,
      (hs.foldl
        (fun acc h =>
          let low := blower h.1
          (acc.1 ++ h.1 ++ strB ": " ++ h.2 ++ CRLF,
           acc.2.1 || (low == strB "content-length"),
           acc.2.2 || (low == strB "transfer-encoding")))
        acc).2 = acc.2 := by
  induction hs with
  | nil => intro acc; rfl
  | cons p ps ih =>
    intro acc
    obtain ⟨h1, h2⟩ := h p (by simp)
    have hb1 : (blower p.1 == strB "content-length") = false := by
      simpa using h1
    have hb2 : (blower p.1 == strB "transfer-encoding") = false := by
      simpa using h2
    rw [List.foldl_cons]
    rw [ih (fun q hq => h q (by simp [hq]))]
    simp [hb1, hb2]

/-- With no application-supplied Content-Length or Transfer-Encoding
header, the start branch leaves both auto-framing flags false. -/
theorem procRespHeaders_flags (hs : List (Bytes × Bytes))
    (h : ∀ p ∈ hs, blower p.1 ≠ strB "content-length" ∧
      blower p.1 ≠ strB "transfer-encoding") :
    (procRespHeaders hs).2.1 = false ∧ (procRespHeaders hs).2.2 = false := by
  unfold procRespHeaders
  rw [procRespHeaders_flags_aux hs h ([], false, false)]
  exact ⟨rfl, rfl⟩

/-- The post-start-plus-first-chunk state: started, chunked mode
chosen, headers flushed. -/
def asgiChunkedState : AsgiHttpState := ⟨true, false, true, none, false, false⟩

theorem asgiRun_chunked_tail (mids : List Bytes) : ∀ blast : Bytes,
    asgiRun asgiChunkedState
      ((mids.map (fun d => AsgiMsg.body d true)) ++ [AsgiMsg.body blast false]) =
      (mids.map chunkEnc).flatten ++ chunkEnc blast ++ strB "0\r\n\r\n" := by
  induction mids with
  | nil =>
    intro blast
    simp [asgiRun, asgiSend, asgiChunkedState]
  | cons d ds ih =>
    intro blast
    rw [List.map_cons, List.cons_append]
    show (asgiSend asgiChunkedState (.body d true)).2 ++
      asgiRun (asgiSend asgiChunkedState (.body d true)).1 _ = _
    have hsend : asgiSend asgiChunkedState (.body d true) =
        (asgiChunkedState, chunkEnc d) := by
      simp [asgiSend, asgiChunkedState]
    rw [hsend]
    rw [ih blast]
    simp

/-- C2: for an event-driven response whose start message supplied
neither Content-Length nor Transfer-Encoding: a single body event with
more_body false gets an automatic Content-Length header equal to the
body length; a first body event with more_body true switches to
chunked framing — a transfer-encoding: chunked header is added, every
nonempty fragment is encoded as hex-length CRLF bytes CRLF in order,
and the response ends with the zero chunk. -/
theorem C2_asgi_response_framing :
    ∀ (s : Int) (hs : List (Bytes × Bytes)),
    (∀ p ∈ hs, blower p.1 ≠ strB "content-length" ∧
      blower p.1 ≠ strB "transfer-encoding") →
    (∀ b : Bytes,
      asgiRun asgiHttpInit [.start s hs, .body b false] =
        statusLineBytes s ++ (procRespHeaders hs).1 ++
        strB "Content-Length: " ++ strB (toString b.length) ++ CRLF ++ CRLF ++ b) ∧
    (∀ (b0 blast : Bytes) (mids : List Bytes),
      asgiRun asgiHttpInit
        (.start s hs :: .body b0 true ::
          ((mids.map (fun d => AsgiMsg.body d true)) ++ [AsgiMsg.body blast false])) =
        statusLineBytes s ++ (procRespHeaders hs).1 ++
        strB "transfer-encoding: chunked\r\n" ++ CRLF ++
        chunkEnc b0 ++ (mids.map chunkEnc).flatten ++ chunkEnc blast ++
        strB "0\r\n\r\n") := by
  intro s hs hno
  have hflags := procRespHeaders_flags hs hno
  constructor
  · intro b
    simp [asgiRun, asgiSend, hflags.1, hflags.2, asgiHttpInit]
  · intro b0 blast mids
    show (asgiSend asgiHttpInit (.start s hs)).2 ++
      asgiRun (asgiSend asgiHttpInit (.start s hs)).1 _ = _
    have h1 : asgiSend asgiHttpInit (.start s hs) =
        (⟨true, false, false, some (statusLineBytes s ++ (procRespHeaders hs).1),
          false, false⟩, []) := by
      simp [asgiSend, asgiHttpInit, hflags.1, hflags.2]
    rw [h1]
    show [] ++ ((asgiSend _ (.body b0 true)).2 ++
      asgiRun (asgiSend _ (.body b0 true)).1 _) = _
    have h2 : asgiSend
        ⟨true, false, false, some (statusLineBytes s ++ (procRespHeaders hs).1),
          false, false⟩ (.body b0 true) =
        (asgiChunkedState,
         statusLineBytes s ++ (procRespHeaders hs).1 ++
           strB "transfer-encoding: chunked\r\n" ++ CRLF ++ chunkEnc b0) := by
      simp [asgiSend, asgiChunkedState]
    rw [h2, asgiRun_chunked_tail mids blast]
    simp

/-- Witness for C2 at a concrete status, header list and fragments. -/
theorem C2_asgi_response_framing_witness :
    asgiRun asgiHttpInit [.start 200 [(strB "x-a", strB "1")], .body (strB "ok") false] =
      statusLineBytes 200 ++ (procRespHeaders [(strB "x-a", strB "1")]).1 ++
      strB "Content-Length: " ++ strB "2" ++ CRLF ++ CRLF ++ strB "ok" ∧
    asgiRun asgiHttpInit
      [.start 200 [], .body (strB "chunk1") true, .body (strB "chunk2") true,
       .body [] false] =
      statusLineBytes 200 ++ (procRespHeaders []).1 ++
      strB "transfer-encoding: chunked\r\n" ++ CRLF ++
      chunkEnc (strB "chunk1") ++ ([strB "chunk2"].map chunkEnc).flatten ++
      chunkEnc [] ++ strB "0\r\n\r\n" := by
  constructor
  · exact (C2_asgi_response_framing 200 [(strB "x-a", strB "1")] (by decide)).1 (strB "ok")
  · exact (C2_asgi_response_framing 200 [] (by decide)).2 (strB "chunk1") [] [strB "chunk2"]

/-! ### Claim C10: keep-alive decision of both connection loops -/

/-- Keep-alive test of _handle_wsgi_connection (lines 278-280):
close when "close" occurs in the lowercased Connection header value. -/
def wsgi_should_close (raw : List (Bytes × Bytes)) : Bool :=
  containsSub (strB "close") (blower (dictGetD raw (strB "connection") []))

/-- Keep-alive test of _handle_asgi_connection (lines 780-782),
textually identical to the WSGI one. -/
def asgi_should_close (raw : List (Bytes × Bytes)) : Bool :=
  containsSub (strB "close") (blower (dictGetD raw (strB "connection") []))

theorem isPrefixOf_iff_exists_append (n l : Bytes) :
    n.isPrefixOf l = true ↔ ∃ t, l = n ++ t := by
  rw [List.isPrefixOf_iff_prefix]
  constructor
  · rintro ⟨t, ht⟩
    exact ⟨t, ht.symm⟩
  · rintro ⟨t, ht⟩
    exact ⟨t, ht.symm⟩

theorem containsSub_iff_exists (needle : Bytes) : ∀ hay : Bytes,
    containsSub needle hay = true ↔ ∃ a b, hay = a ++ needle ++ b := by
  intro hay
  induction hay with
  | nil =>
    rw [containsSub, isPrefixOf_iff_exists_append]
    constructor
    · rintro ⟨t, ht⟩
      exact ⟨[], t, ht⟩
    · rintro ⟨a, b, hab⟩
      refine ⟨b, ?_⟩
      have ha : a = [] := by
        cases a with
        | nil => rfl
        | cons x xs => simp at hab
      subst ha
      simpa using hab
  | cons x xs ih =>
    rw [containsSub, Bool.or_eq_true_iff, isPrefixOf_iff_exists_append, ih]
    constructor
    · rintro (⟨t, ht⟩ | ⟨a, b, hab⟩)
      · exact ⟨[], t, by simpa using ht⟩
      · exact ⟨x :: a, b, by simp [hab]⟩
    · rintro ⟨a, b, hab⟩
      cases a with
      | nil =>
        exact Or.inl ⟨b, by simpa using hab⟩
      | cons a0 as =>
        simp only [List.cons_append, List.cons.injEq] at hab
        exact Or.inr ⟨as, b, hab.2⟩

/-- C10: both connection loops decide keep-alive by the same test; the
connection closes exactly when the five bytes of "close" occur as a
substring of the lowercased Connection header value (so a value such as
"x-close-token" closes too), and a missing Connection header always
keeps the connection alive. -/
theorem C10_keepalive_substring_close :
    (∀ raw : List (Bytes × Bytes), wsgi_should_close raw = asgi_should_close raw) ∧
    (∀ raw : List (Bytes × Bytes),
      asgi_should_close raw = true ↔
      ∃ a b, blower (dictGetD raw (strB "connection") []) = a ++ strB "close" ++ b) ∧
    (∀ raw : List (Bytes × Bytes),
      dictGet raw (strB "connection") = none → asgi_should_close raw = false) ∧
    asgi_should_close [(strB "connection", strB "x-close-token")] = true ∧
    asgi_should_close [(strB "connection", strB "keep-alive")] = false := by
  refine ⟨fun raw => rfl, ?_, ?_, by decide, by decide⟩
  · intro raw
    exact containsSub_iff_exists (strB "close") _
  · intro raw h
    unfold asgi_should_close dictGetD
    rw [h]
    decide

/-- Witness for C10: a request without a Connection header keeps the
connection alive. -/
theorem C10_keepalive_substring_close_witness :
    asgi_should_close [(strB "host", strB "x")] = false :=
  C10_keepalive_substring_close.2.2.1 [(strB "host", strB "x")] (by decide)

/-! ### Claim C6: the synchronous (WSGI) dispatcher -/

/-- Observable behavior of one WSGI application call as seen by
_call_wsgi_app: the (status, headers) pairs recorded by successive
start_response calls, the chunks yielded by the returned iterable, and
whether an exception was raised at any point before iteration
finished (in which case the collected output is discarded). -/
structure WsgiAppRun where
  startCalls : List (Bytes × List (Bytes × Bytes))
  chunks : List Bytes
  raises : Bool
deriving DecidableEq, Repr

/-- status_str.split(" ", 1)[0]. -/
def statusFirstToken (status : Bytes) : Bytes :=
  match splitSpaceOnce status with
  | none => status
  | some p => p.1

/-- int(status_str.split(" ", 1)[0]) — none where int() raises. -/
def parseStatusCode (status : Bytes) : Option Int :=
  pyInt 10 (statusFirstToken status)

/-- The 500 fallback response of _call_wsgi_app. -/
def wsgi500 : Int × List (Bytes × Bytes) × Bytes :=
  (500, [(strB "Content-Type", strB "text/plain")], strB "Internal Server Error")

/-- The embedding of _call_wsgi_app (lines 143-175): an exception
anywhere (from the app, the iteration, or the int() status parse)
produces the 500 fallback; a run that never called start_response
produces the 500 fallback; otherwise the first recorded status line
and headers are used and the truthy chunks are joined. -/
def call_wsgi_app (run : WsgiAppRun) : Int × List (Bytes × Bytes) × Bytes :=
  if run.raises then wsgi500
  else
    match run.startCalls with
    | [] => wsgi500
    | (status, hdrs) :: _ =>
      match parseStatusCode status with
      | none => wsgi500
      | some code => (code, hdrs, ((run.chunks.filter (fun c => !c.isEmpty)).flatten))

theorem flatten_filter_truthy (L : List Bytes) :
    (L.filter (fun c => !c.isEmpty)).flatten = L.flatten := by
  induction L with
  | nil => rfl
  | cons c cs ih =>
    cases c with
    | nil => simp [List.filter_cons, ih]
    | cons x xs => simp [List.filter_cons, ih]

/-- C6: a raising application or one that returns without calling
start_response yields status 500 with plain-text body "Internal Server
Error"; otherwise the status code and headers of the first
start_response call are used and the body is the concatenation of the
yielded chunks. -/
theorem C6_wsgi_dispatcher_fallback :
    (∀ run : WsgiAppRun, run.raises = true → call_wsgi_app run = wsgi500) ∧
    (∀ run : WsgiAppRun, run.raises = false → run.startCalls = [] →
      call_wsgi_app run = wsgi500) ∧
    (∀ (run : WsgiAppRun) (status : Bytes) (hdrs : List (Bytes × Bytes))
      (rest : List (Bytes × List (Bytes × Bytes))) (code : Int),
      run.raises = false → run.startCalls = (status, hdrs) :: rest →
      parseStatusCode status = some code →
      call_wsgi_app run = (code, hdrs, run.chunks.flatten)) ∧
    wsgi500.1 = 500 ∧ wsgi500.2.2 = strB "Internal Server Error" := by
  refine ⟨?_, ?_, ?_, rfl, rfl⟩
  · intro run h
    simp [call_wsgi_app, h]
  · intro run h hs
    simp [call_wsgi_app, h, hs]
  · intro run status hdrs rest code h hs hp
    simp [call_wsgi_app, h, hs, hp, flatten_filter_truthy]

/-- Witness for C6 at concrete application behaviors. -/
theorem C6_wsgi_dispatcher_fallback_witness :
    call_wsgi_app ⟨[(strB "200 OK", [])], [strB "boom"], true⟩ = wsgi500 ∧
    call_wsgi_app ⟨[], [strB "data"], false⟩ = wsgi500 ∧
    call_wsgi_app ⟨[(strB "200 OK", [(strB "X", strB "1")])],
      [strB "he", [], strB "llo"], false⟩ =
      (200, [(strB "X", strB "1")], strB "hello") := by
  refine ⟨?_, ?_, ?_⟩
  · exact C6_wsgi_dispatcher_fallback.1 _ (by decide)
  · exact C6_wsgi_dispatcher_fallback.2.1 _ (by decide) (by decide)
  · have h := C6_wsgi_dispatcher_fallback.2.2.1
      ⟨[(strB "200 OK", [(strB "X", strB "1")])], [strB "he", [], strB "llo"], false⟩
      (strB "200 OK") [(strB "X", strB "1")] [] 200 (by decide) (by decide) (by decide)
    simpa using h

/-! ### Claim C7: WebSocket frame encode/decode round trip -/

/-- struct.pack big-endian rendering on k bytes (pack codes !H and !Q
for k = 2 and k = 8). -/
def packBE : Nat → Nat → Bytes
  | 0, _ => []
  | k + 1, n => packBE k (n / 256) ++ [n % 256]

/-- struct.unpack big-endian value of a byte string. -/
def unpackBE (l : Bytes) : Nat := l.foldl (fun a b => a * 256 + b) 0

/-- The embedding of ws_build_frame (lines 400-416): first byte is the
fin bit and opcode, then the 7-bit, 126-marked 16-bit or 127-marked
64-bit length, then the payload (server frames are unmasked). -/
def ws_build_frame (opcode : Nat) (payload : Bytes) (fin : Bool) : Bytes :=
  let b0 := ((if fin then 1 else 0) <<< 7) ||| opcode
  let lenB :=
    if payload.length < 126 then [payload.length]
    else if payload.length < 65536 then 126 :: packBE 2 payload.length
    else 127 :: packBE 8 payload.length
  (b0 :: lenB) ++ payload

/-- The embedding of ws_read_frame (lines 373-397) on a byte stream:
two header bytes, the extended length if the 7-bit field is 126 or
127, the 4-byte mask key if the mask bit is set, then the payload,
unmasked by XOR with the repeating key; none models
IncompleteReadError.  Returns (fin, opcode, payload, rest). -/
def ws_read_frame (input : Bytes) : Option (Nat × Nat × Bytes × Bytes) :=
  match input with
  | d0 :: d1 :: rest =>
    let fin := (d0 >>> 7) &&& 1
    let opcode := d0 &&& 0xF
    let masked := (d1 >>> 7) &&& 1
    let pl0 := d1 &&& 0x7F
    let step2 : Option (Nat × Bytes) :=
      if pl0 = 126 then
        match rest with
        | x :: y :: r => some (unpackBE [x, y], r)
        | _ => none
      else if pl0 = 127 then
        match rest with
        | x0 :: x1 :: x2 :: x3 :: x4 :: x5 :: x6 :: x7 :: r =>
          some (unpackBE [x0, x1, x2, x3, x4, x5, x6, x7], r)
        | _ => none
      else some (pl0, rest)
    match step2 with
    | none => none
    | some pr =>
      let step3 : Option (Option Bytes × Bytes) :=
        if masked = 1 then
          match readExactly 4 pr.2 with
          | some mk => some (some mk.1, mk.2)
          | none => none
        else some (none, pr.2)
      match step3 with
      | none => none
      | some mr =>
        match readExactly pr.1 mr.2 with
        | none => none
        | some pp =>
          let unmasked :=
            match mr.1 with
            | some mk => pp.1.mapIdx (fun i b => b ^^^ mk.getD (i % 4) 0)
            | none => pp.1
          some (fin, opcode, unmasked, pp.2)
  | _ => none

theorem unpackBE_packBE : ∀ (k n : Nat), unpackBE (packBE k n) = n % 256 ^ k := by
  intro k
  induction k with
  | zero =>
    intro n
    simp [packBE, unpackBE, Nat.mod_one]
  | succ k ih =>
    intro n
    show unpackBE (packBE k (n / 256) ++ [n % 256]) = _
    unfold unpackBE
    rw [List.foldl_append]
    show (unpackBE (packBE k (n / 256))) * 256 + n % 256 = n % 256 ^ (k + 1)
    rw [ih (n / 256), pow_succ']
    rw [Nat.mod_mul]
    omega

theorem ws_b0_decomp {op : Nat} (h : op < 16) :
    (128 ||| op) = 128 + op ∧
    ((128 + op) >>> 7) &&& 1 = 1 ∧ (128 + op) &&& 0xF = op := by
  interval_cases op <;> exact ⟨by decide, by decide, by decide⟩

theorem small_len_decomp {n : Nat} (h : n < 126) :
    ((n >>> 7) &&& 1) = 0 ∧ (n &&& 0x7F) = n := by
  constructor
  · rw [Nat.shiftRight_eq_div_pow]
    rw [Nat.div_eq_of_lt (by omega)]
    decide
  · have := Nat.and_pow_two_sub_one_of_lt_two_pow (n := 7) (x := n) (by omega)
    simpa using this

theorem readExactly_self (l : Bytes) : readExactly l.length l = some (l, []) := by
  have := readExactly_append l []
  simpa using this

theorem ws_roundtrip_small {op : Nat} {payload : Bytes} (hop : op < 16)
    (hlen : payload.length < 126) :
    ws_read_frame (ws_build_frame op payload true) = some (1, op, payload, []) := by
  have hb := ws_b0_decomp hop
  have hs := small_len_decomp hlen
  have hframe : ws_build_frame op payload true =
      (128 + op) :: payload.length :: payload := by
    unfold ws_build_frame
    rw [if_pos hlen]
    simp [hb.1]
  rw [hframe]
  simp only [ws_read_frame, hb.2.1, hb.2.2, hs.1, hs.2]
  rw [if_neg (by omega), if_neg (by omega)]
  simp [readExactly_self]

theorem ws_roundtrip_mid {op : Nat} {payload : Bytes} (hop : op < 16)
    (h126 : 126 ≤ payload.length) (hlen : payload.length < 65536) :
    ws_read_frame (ws_build_frame op payload true) = some (1, op, payload, []) := by
  have hb := ws_b0_decomp hop
  have hframe : ws_build_frame op payload true =
      (128 + op) :: 126 :: (payload.length / 256 % 256 :: payload.length % 256 :: payload) := by
    unfold ws_build_frame
    rw [if_neg (show ¬ payload.length < 126 by omega), if_pos hlen]
    simp [hb.1, packBE]
  have hup : unpackBE [payload.length / 256 % 256, payload.length % 256] =
      payload.length := by
    have h2 := unpackBE_packBE 2 payload.length
    rw [show packBE 2 payload.length =
      [payload.length / 256 % 256, payload.length % 256] from rfl] at h2
    rw [h2]
    exact Nat.mod_eq_of_lt (by omega)
  rw [hframe]
  simp [ws_read_frame, hb.2.1, hb.2.2, hup, readExactly_self,
    show (((126 : Nat) >>> 7) &&& 1) = 0 from rfl,
    show ((126 : Nat) &&& 127) = 126 from rfl]

theorem ws_roundtrip_big {op : Nat} {payload : Bytes} (hop : op < 16)
    (h64 : 65536 ≤ payload.length) (hlen : payload.length < 2 ^ 64) :
    ws_read_frame (ws_build_frame op payload true) = some (1, op, payload, []) := by
  have hb := ws_b0_decomp hop
  have hpack : packBE 8 payload.length =
      [payload.length / 256 / 256 / 256 / 256 / 256 / 256 / 256 % 256,
       payload.length / 256 / 256 / 256 / 256 / 256 / 256 % 256,
       payload.length / 256 / 256 / 256 / 256 / 256 % 256,
       payload.length / 256 / 256 / 256 / 256 % 256,
       payload.length / 256 / 256 / 256 % 256,
       payload.length / 256 / 256 % 256,
       payload.length / 256 % 256,
       payload.length % 256] := rfl
  have hframe : ws_build_frame op payload true =
      (128 + op) :: 127 :: (packBE 8 payload.length ++ payload) := by
    unfold ws_build_frame
    rw [if_neg (show ¬ payload.length < 126 by omega),
      if_neg (show ¬ payload.length < 65536 by omega)]
    simp [hb.1]
  have hup : unpackBE (packBE 8 payload.length) = payload.length := by
    rw [unpackBE_packBE 8 payload.length]
    exact Nat.mod_eq_of_lt (by norm_num at hlen ⊢; omega)
  have hupx : unpackBE
      [payload.length / 256 / 256 / 256 / 256 / 256 / 256 / 256 % 256,
       payload.length / 256 / 256 / 256 / 256 / 256 / 256 % 256,
       payload.length / 256 / 256 / 256 / 256 / 256 % 256,
       payload.length / 256 / 256 / 256 / 256 % 256,
       payload.length / 256 / 256 / 256 % 256,
       payload.length / 256 / 256 % 256,
       payload.length / 256 % 256,
       payload.length % 256] = payload.length := by
    rw [← hpack]
    exact hup
  rw [hframe, hpack]
  simp [ws_read_frame, hb.2.1, hb.2.2, hupx, readExactly_self,
    show (((127 : Nat) >>> 7) &&& 1) = 0 from rfl,
    show ((127 : Nat) &&& 127) = 127 from rfl]

/-- C7: decoding a frame built with fin true returns fin 1, the same
opcode and the same payload with nothing left over, for every 4-bit
opcode and every payload below the 64-bit length bound; and the frame
lays out the payload length in the 7-bit form below 126, the 16-bit
form with marker 126 up to 65535, and the 64-bit form with marker 127
above that. -/
theorem C7_ws_frame_roundtrip (op : Nat) (payload : Bytes)
    (hop : op < 16) (hlen : payload.length < 2 ^ 64) :
    ws_read_frame (ws_build_frame op payload true) = some (1, op, payload, []) ∧
    ws_build_frame op payload true =
      (128 + op) ::
        ((if payload.length < 126 then [payload.length]
          else if payload.length < 65536 then 126 :: packBE 2 payload.length
          else 127 :: packBE 8 payload.length) ++ payload) := by
  constructor
  · by_cases h1 : payload.length < 126
    · exact ws_roundtrip_small hop h1
    · by_cases h2 : payload.length < 65536
      · exact ws_roundtrip_mid hop (by omega) h2
      · exact ws_roundtrip_big hop (by omega) hlen
  · have hb := ws_b0_decomp hop
    unfold ws_build_frame
    simp [hb.1]

/-- Witness for C7 at opcode 2 and the payload sizes 0, 125, 126,
65535 and 65536 named by the claim. -/
theorem C7_ws_frame_roundtrip_witness :
    ws_read_frame (ws_build_frame 2 (List.replicate 0 97) true) =
      some (1, 2, List.replicate 0 97, []) ∧
    ws_read_frame (ws_build_frame 2 (List.replicate 125 97) true) =
      some (1, 2, List.replicate 125 97, []) ∧
    ws_read_frame (ws_build_frame 2 (List.replicate 126 97) true) =
      some (1, 2, List.replicate 126 97, []) ∧
    ws_read_frame (ws_build_frame 2 (List.replicate 65535 97) true) =
      some (1, 2, List.replicate 65535 97, []) ∧
    ws_read_frame (ws_build_frame 2 (List.replicate 65536 97) true) =
      some (1, 2, List.replicate 65536 97, []) :=
  ⟨(C7_ws_frame_roundtrip 2 _ (by decide) (by norm_num)).1,
   (C7_ws_frame_roundtrip 2 _ (by decide) (by norm_num)).1,
   (C7_ws_frame_roundtrip 2 _ (by decide) (by norm_num)).1,
   (C7_ws_frame_roundtrip 2 _ (by decide) (by norm_num)).1,
   (C7_ws_frame_roundtrip 2 _ (by decide) (by norm_num)).1⟩

/-! ### Claim C5: the WSGI environ builder -/

/-- Values stored by _build_wsgi_environ (strings are kept as latin-1
bytes; the non-string entries are tagged). -/
inductive EnvValue where
  | str (s : Bytes)
  | verTuple
  | bytesInput (body : Bytes)
  | errSink
  | boolVal (b : Bool)
deriving DecidableEq, Repr

/-- Python dict assignment for an arbitrary value type (same semantics
as dictSet). -/
def dictSetV {α : Type} (d : List (Bytes × α)) (k : Bytes) (v : α) :
    List (Bytes × α) :=
  if d.any (fun p => p.1 = k) then
    d.map (fun p => if p.1 = k then (k, v) else p)
  else
    d ++ [(k, v)]

/-- Python dict.get for an arbitrary value type. -/
def dictGetV {α : Type} (d : List (Bytes × α)) (k : Bytes) : Option α :=
  (d.find? (fun p => p.1 = k)).map (fun p => p.2)

/-- The _split_path helper: split at the first question mark. -/
def split_path (path : Bytes) : Bytes × Bytes :=
  match path.findIdx? (fun b => b = 63) with
  | some i => (path.take i, path.drop (i + 1))
  | none => (path, [])

/-- Modelled from Python stdlib urllib.parse.unquote, restricted to the
byte level: a percent sign followed by two hex digits becomes the
denoted byte, anything else passes through (the UTF-8 re-decoding step
of the stdlib is identity on the latin-1-range inputs the claims use).
Only the PATH_INFO entry depends on it; no claim inspects that entry. -/
def pyUnquote : Bytes → Bytes
  | [] => []
  | 37 :: a :: b :: rest =>
    match digitVal16 a, digitVal16 b with
    | some ha, some hb => (ha * 16 + hb) :: pyUnquote rest
    | _, _ => 37 :: pyUnquote (a :: b :: rest)
  | b :: rest => b :: pyUnquote rest

/-- The last-colon split of _parse_host_header (host:port with
try/except falling back to the whole host and the default port). -/
def parseHostColon (host : Bytes) (dp : Int) : Bytes × Int :=
  if host.contains 58 then
    match host.reverse.findIdx? (fun b => b = 58) with
    | some j =>
      let i := host.length - 1 - j
      match pyInt 10 (host.drop (i + 1)) with
      | some p => (host.take i, p)
      | none => (host, dp)
    | none => (host, dp)
  else (host, dp)

/-- The embedding of _parse_host_header (lines 84-102): empty value
defaults to localhost; a bracketed IPv6 literal keeps the bracket
interior, and a port after the closing bracket is parsed with int()
whose ValueError is not caught (none); otherwise split at the last
colon with a ValueError fallback to the default port. -/
def parse_host_header (host : Bytes) (default_port : Int) :
    Option (Bytes × Int) :=
  if host = [] then some (strB "localhost", default_port)
  else if host.head? = some 91 then
    match host.findIdx? (fun b => b = 93) with
    | some be =>
      let h := (host.take be).drop 1
      let rest := host.drop (be + 1)
      if rest.head? = some 58 then
        (pyInt 10 (rest.drop 1)).map (fun p => (h, p))
      else some (h, default_port)
    | none => some (parseHostColon host default_port)
  else some (parseHostColon host default_port)

/-- key.upper().replace("-", "_") on ASCII header names. -/
def upperSnake (l : Bytes) : Bytes :=
  l.map (fun b => if 97 ≤ b ∧ b ≤ 122 then b - 32 else if b = 45 then 95 else b)

/-- The dict-of-lists append of the header_groups loop. -/
def groupAdd : List (Bytes × List Bytes) → Bytes → Bytes → List (Bytes × List Bytes)
  | [], k, v => [(k, [v])]
  | (k0, vs) :: rest, k, v =>
    if k0 = k then (k0, vs ++ [v]) :: rest
    else (k0, vs) :: groupAdd rest k v

/-- Lookup in the header groups (keys are unique by construction). -/
def groupsGet : List (Bytes × List Bytes) → Bytes → List Bytes
  | [], _ => []
  | (k0, vs) :: rest, k => if k0 = k then vs else groupsGet rest k

/-- One header of the header_groups loop of _build_wsgi_environ: group
the value under the HTTP_-prefixed upper-snake name, skipping
CONTENT_TYPE, CONTENT_LENGTH and PROXY. -/
def hgStep (groups : List (Bytes × List Bytes)) (h : Bytes × Bytes) :
    List (Bytes × List Bytes) :=
  let keyU := upperSnake h.1
  if keyU = strB "CONTENT_TYPE" ∨ keyU = strB "CONTENT_LENGTH" ∨
      keyU = strB "PROXY" then groups
  else groupAdd groups (strB "HTTP_" ++ keyU) h.2

/-- The header_groups loop of _build_wsgi_environ. -/
def headerGroups (hl : List (Bytes × Bytes)) : List (Bytes × List Bytes) :=
  hl.foldl hgStep []

/-- Python sep.join. -/
def joinSep (sep : Bytes) : List Bytes → Bytes
  | [] => []
  | [v] => v
  | v :: vs => v ++ sep ++ joinSep sep vs

/-- The environ dict literal of _build_wsgi_environ, before the
conditional CONTENT_TYPE / CONTENT_LENGTH entries and header loop. -/
def wsgiBaseEnv (method path version : Bytes) (sp : Bytes × Int)
    (body : Bytes) : List (Bytes × EnvValue) :=
  let pq := split_path path
  [(strB "REQUEST_METHOD", .str method),
   (strB "SCRIPT_NAME", .str []),
   (strB "PATH_INFO", .str (if pq.1.contains 37 then pyUnquote pq.1 else pq.1)),
   (strB "QUERY_STRING", .str pq.2),
   (strB "SERVER_NAME", .str sp.1),
   (strB "SERVER_PORT", .str (strB (toString sp.2))),
   (strB "SERVER_PROTOCOL", .str version),
   (strB "REMOTE_ADDR", .str (strB "127.0.0.1")),
   (strB "REMOTE_HOST", .str (strB "127.0.0.1")),
   (strB "X_FROM", .str (strB "caddy-snake")),
   (strB "wsgi.version", .verTuple),
   (strB "wsgi.url_scheme", .str (strB "http")),
   (strB "wsgi.input", .bytesInput body),
   (strB "wsgi.errors", .errSink),
   (strB "wsgi.multithread", .boolVal true),
   (strB "wsgi.multiprocess", .boolVal true),
   (strB "wsgi.run_once", .boolVal false)]

/-- The conditional CONTENT_TYPE entry (truthy header values only). -/
def wsgiEnvCT (raw : List (Bytes × Bytes)) (e : List (Bytes × EnvValue)) :
    List (Bytes × EnvValue) :=
  match dictGet raw (strB "content-type") with
  | some ct => if ct ≠ [] then dictSetV e (strB "CONTENT_TYPE") (.str ct) else e
  | none => e

/-- The conditional CONTENT_LENGTH entry (truthy header values only). -/
def wsgiEnvCL (raw : List (Bytes × Bytes)) (e : List (Bytes × EnvValue)) :
    List (Bytes × EnvValue) :=
  match dictGet raw (strB "content-length") with
  | some cl => if cl ≠ [] then dictSetV e (strB "CONTENT_LENGTH") (.str cl) else e
  | none => e

/-- One entry of the final header-group write loop: join the values
with "; " for HTTP_COOKIE and ", " otherwise. -/
def envStep (e : List (Bytes × EnvValue)) (g : Bytes × List Bytes) :
    List (Bytes × EnvValue) :=
  dictSetV e g.1
    (.str (joinSep (if g.1.drop 5 = strB "COOKIE" then strB "; " else strB ", ") g.2))

/-- The embedding of _build_wsgi_environ (lines 178-229).  none models
the uncaught ValueError of the bracketed-host port parse. -/
def build_wsgi_environ (method path version : Bytes)
    (headers_list raw : List (Bytes × Bytes)) (body : Bytes) :
    Option (List (Bytes × EnvValue)) :=
  let host_str := dictGetD raw (strB "host") (strB "localhost")
  match parse_host_header host_str 80 with
  | none => none
  | some sp =>
    some ((headerGroups headers_list).foldl envStep
      (wsgiEnvCL raw (wsgiEnvCT raw (wsgiBaseEnv method path version sp body))))

theorem find?_map_update {α : Type} (k : Bytes) (v : α) : ∀ d : List (Bytes × α),
    d.any (fun p => p.1 = k) = true →
    (d.map (fun p => if p.1 = k then (k, v) else p)).find? (fun p => p.1 = k) =
      some (k, v) := by
  intro d
  induction d with
  | nil => intro h; simp at h
  | cons p rest ih =>
    intro h
    by_cases hp : p.1 = k
    · rw [List.map_cons, show (if p.1 = k then (k, v) else p) = (k, v) from if_pos hp,
        List.find?_cons_of_pos _ (by simp)]
    · rw [List.map_cons, show (if p.1 = k then (k, v) else p) = p from if_neg hp,
        List.find?_cons_of_neg _ (by simp [hp])]
      apply ih
      simp [hp] at h
      simpa using h

theorem find?_append_singleton {α : Type} (k : Bytes) (v : α) : ∀ d : List (Bytes × α),
    d.any (fun p => p.1 = k) = false →
    (d ++ [(k, v)]).find? (fun p => p.1 = k) = some (k, v) := by
  intro d
  induction d with
  | nil =>
    intro _
    rw [List.nil_append, List.find?_cons_of_pos _ (by simp)]
  | cons p rest ih =>
    intro h
    simp only [List.any_cons, Bool.or_eq_false_iff] at h
    rw [List.cons_append, List.find?_cons_of_neg _ (by simp [of_decide_eq_false h.1])]
    exact ih h.2

theorem dictGetV_set_same {α : Type} (d : List (Bytes × α)) (k : Bytes) (v : α) :
    dictGetV (dictSetV d k v) k = some v := by
  unfold dictSetV dictGetV
  by_cases hany : d.any (fun p => p.1 = k) = true
  · rw [if_pos hany, find?_map_update k v d hany]
    rfl
  · have hf : d.any (fun p => p.1 = k) = false := by
      cases h : d.any (fun p => p.1 = k)
      · rfl
      · exact absurd h hany
    rw [if_neg hany, find?_append_singleton k v d hf]
    rfl

theorem find?_map_update_other {α : Type} (k k' : Bytes) (v : α) (hne : k' ≠ k) :
    ∀ d : List (Bytes × α),
    (d.map (fun p => if p.1 = k then (k, v) else p)).find? (fun p => p.1 = k') =
      d.find? (fun p => p.1 = k') := by
  intro d
  induction d with
  | nil => rfl
  | cons p rest ih =>
    by_cases hp : p.1 = k
    · rw [List.map_cons, show (if p.1 = k then (k, v) else p) = (k, v) from if_pos hp,
        List.find?_cons_of_neg _ (by simp; exact fun h => hne h.symm),
        List.find?_cons_of_neg _ (by simp [hp]; exact fun h => hne h.symm),
        ih]
    · rw [List.map_cons, show (if p.1 = k then (k, v) else p) = p from if_neg hp]
      by_cases hp' : p.1 = k'
      · rw [List.find?_cons_of_pos _ (by simp [hp']), List.find?_cons_of_pos _ (by simp [hp'])]
      · rw [List.find?_cons_of_neg _ (by simp [hp']), List.find?_cons_of_neg _ (by simp [hp']),
          ih]

theorem find?_append_singleton_other {α : Type} (k k' : Bytes) (v : α)
    (hne : k' ≠ k) : ∀ d : List (Bytes × α),
    (d ++ [(k, v)]).find? (fun p => p.1 = k') = d.find? (fun p => p.1 = k') := by
  intro d
  induction d with
  | nil =>
    rw [List.nil_append, List.find?_cons_of_neg _ (by simp; exact fun h => hne h.symm)]
  | cons p rest ih =>
    by_cases hp' : p.1 = k'
    · rw [List.cons_append, List.find?_cons_of_pos _ (by simp [hp']),
        List.find?_cons_of_pos _ (by simp [hp'])]
    · rw [List.cons_append, List.find?_cons_of_neg _ (by simp [hp']),
        List.find?_cons_of_neg _ (by simp [hp']), ih]

theorem dictGetV_set_other {α : Type} (d : List (Bytes × α)) (k k' : Bytes) (v : α)
    (hne : k' ≠ k) : dictGetV (dictSetV d k v) k' = dictGetV d k' := by
  unfold dictSetV dictGetV
  by_cases hany : d.any (fun p => p.1 = k) = true
  · rw [if_pos hany, find?_map_update_other k k' v hne d]
  · rw [if_neg hany, find?_append_singleton_other k k' v hne d]

/-- The values of headers whose transformed name is K, in order. -/
def valuesFor (K : Bytes) (hl : List (Bytes × Bytes)) : List Bytes :=
  hl.filterMap (fun h => if upperSnake h.1 = K then some h.2 else none)

/-- The keys of an association list. -/
def keysOf {α : Type} (g : List (Bytes × α)) : List Bytes := g.map (fun p => p.1)

theorem groupsGet_groupAdd_same : ∀ (g : List (Bytes × List Bytes)) (k v : Bytes),
    groupsGet (groupAdd g k v) k = groupsGet g k ++ [v] := by
  intro g
  induction g with
  | nil => intro k v; simp [groupAdd, groupsGet]
  | cons p rest ih =>
    intro k v
    obtain ⟨k0, vs⟩ := p
    by_cases hk : k0 = k
    · simp [groupAdd, groupsGet, hk]
    · simp only [groupAdd, if_neg hk, groupsGet, ih]

theorem groupsGet_groupAdd_other {k' k : Bytes} (hne : k' ≠ k) :
    ∀ (g : List (Bytes × List Bytes)) (v : Bytes),
    groupsGet (groupAdd g k v) k' = groupsGet g k' := by
  have hkk : ¬ k = k' := fun h => hne h.symm
  intro g
  induction g with
  | nil =>
    intro v
    simp [groupAdd, groupsGet, hkk]
  | cons p rest ih =>
    intro v
    obtain ⟨k0, vs⟩ := p
    by_cases hk : k0 = k
    · subst hk
      simp [groupAdd, groupsGet, hkk]
    · simp only [groupAdd, if_neg hk, groupsGet, ih]

theorem keysOf_groupAdd_sub {key : Bytes} : ∀ (g : List (Bytes × List Bytes)) (k v : Bytes),
    key ∈ keysOf (groupAdd g k v) → key ∈ keysOf g ∨ key = k := by
  intro g
  induction g with
  | nil =>
    intro k v h
    simp [groupAdd, keysOf] at h
    exact Or.inr h
  | cons p rest ih =>
    intro k v h
    obtain ⟨k0, vs⟩ := p
    by_cases hk : k0 = k
    · simp only [groupAdd, if_pos hk, keysOf, List.map_cons, List.mem_cons] at h
      rcases h with h | h
      · exact Or.inl (by simp [keysOf, h])
      · exact Or.inl (by simp [keysOf]; exact Or.inr (by simpa [keysOf] using h))
    · simp only [groupAdd, if_neg hk, keysOf, List.map_cons, List.mem_cons] at h
      rcases h with h | h
      · exact Or.inl (by simp [keysOf, h])
      · rcases ih k v (by simpa [keysOf] using h) with h2 | h2
        · exact Or.inl (by simp [keysOf]; exact Or.inr (by simpa [keysOf] using h2))
        · exact Or.inr h2

theorem nodup_keysOf_groupAdd : ∀ (g : List (Bytes × List Bytes)) (k v : Bytes),
    (keysOf g).Nodup → (keysOf (groupAdd g k v)).Nodup := by
  intro g
  induction g with
  | nil => intro k v _; simp [groupAdd, keysOf]
  | cons p rest ih =>
    intro k v h
    obtain ⟨k0, vs⟩ := p
    simp only [keysOf, List.map_cons, List.nodup_cons] at h
    by_cases hk : k0 = k
    · subst hk
      rw [show groupAdd ((k0, vs) :: rest) k0 v = (k0, vs ++ [v]) :: rest from by
        simp [groupAdd]]
      simp only [keysOf, List.map_cons, List.nodup_cons]
      exact h
    · rw [show groupAdd ((k0, vs) :: rest) k v = (k0, vs) :: groupAdd rest k v from by
        simp [groupAdd, hk]]
      simp only [keysOf, List.map_cons, List.nodup_cons]
      constructor
      · intro hmem
        rcases keysOf_groupAdd_sub rest k v (by simpa [keysOf] using hmem) with h2 | h2
        · exact h.1 (by simpa [keysOf] using h2)
        · exact hk h2
      · exact ih k v h.2

theorem groupsGet_ne_nil_mem {key : Bytes} : ∀ g : List (Bytes × List Bytes),
    groupsGet g key ≠ [] → key ∈ keysOf g := by
  intro g
  induction g with
  | nil => intro h; simp [groupsGet] at h
  | cons p rest ih =>
    intro h
    obtain ⟨k0, vs⟩ := p
    by_cases hk : k0 = key
    · simp [keysOf, hk]
    · rw [groupsGet, if_neg hk] at h
      simp [keysOf]
      exact Or.inr (by simpa [keysOf] using ih h)

theorem groupsGet_hgFold (K : Bytes)
    (hK : ¬(K = strB "CONTENT_TYPE" ∨ K = strB "CONTENT_LENGTH" ∨ K = strB "PROXY")) :
    ∀ (hl : List (Bytes × Bytes)) (g : List (Bytes × List Bytes)),
    groupsGet (hl.foldl hgStep g) (strB "HTTP_" ++ K) =
      groupsGet g (strB "HTTP_" ++ K) ++ valuesFor K hl := by
  intro hl
  induction hl with
  | nil => intro g; simp [valuesFor]
  | cons h hs ih =>
    intro g
    rw [List.foldl_cons]
    by_cases hskip : upperSnake h.1 = strB "CONTENT_TYPE" ∨
        upperSnake h.1 = strB "CONTENT_LENGTH" ∨ upperSnake h.1 = strB "PROXY"
    · have huk : upperSnake h.1 ≠ K := by
        intro he
        exact hK (he ▸ hskip)
      rw [show hgStep g h = g from by simp [hgStep, hskip]]
      rw [ih g]
      rw [show valuesFor K (h :: hs) = valuesFor K hs from by
        simp [valuesFor, List.filterMap_cons, huk]]
    · rw [show hgStep g h = groupAdd g (strB "HTTP_" ++ upperSnake h.1) h.2 from by
        simp [hgStep, hskip]]
      by_cases huk : upperSnake h.1 = K
      · rw [huk, ih (groupAdd g (strB "HTTP_" ++ K) h.2),
          groupsGet_groupAdd_same g (strB "HTTP_" ++ K) h.2]
        rw [show valuesFor K (h :: hs) = h.2 :: valuesFor K hs from by
          simp [valuesFor, List.filterMap_cons, huk]]
        simp
      · have hne : strB "HTTP_" ++ K ≠ strB "HTTP_" ++ upperSnake h.1 := by
          intro he
          exact huk (List.append_cancel_left he).symm
        rw [ih (groupAdd g (strB "HTTP_" ++ upperSnake h.1) h.2),
          groupsGet_groupAdd_other hne g h.2]
        rw [show valuesFor K (h :: hs) = valuesFor K hs from by
          simp [valuesFor, List.filterMap_cons, huk]]

/-- Every key of the built header groups is the HTTP_-prefixed
upper-snake name of some non-skipped request header. -/
theorem keysOf_hgFold_mem (key : Bytes) : ∀ (hl : List (Bytes × Bytes))
    (g : List (Bytes × List Bytes)), key ∈ keysOf (hl.foldl hgStep g) →
    key ∈ keysOf g ∨ ∃ h ∈ hl, key = strB "HTTP_" ++ upperSnake h.1 ∧
      ¬(upperSnake h.1 = strB "CONTENT_TYPE" ∨
        upperSnake h.1 = strB "CONTENT_LENGTH" ∨ upperSnake h.1 = strB "PROXY") := by
  intro hl
  induction hl with
  | nil => intro g h; exact Or.inl h
  | cons h0 hs ih =>
    intro g hmem
    rw [List.foldl_cons] at hmem
    by_cases hskip : upperSnake h0.1 = strB "CONTENT_TYPE" ∨
        upperSnake h0.1 = strB "CONTENT_LENGTH" ∨ upperSnake h0.1 = strB "PROXY"
    · rw [show hgStep g h0 = g from by simp [hgStep, hskip]] at hmem
      rcases ih g hmem with h2 | ⟨hh, hhs, h3⟩
      · exact Or.inl h2
      · exact Or.inr ⟨hh, by simp [hhs], h3⟩
    · rw [show hgStep g h0 = groupAdd g (strB "HTTP_" ++ upperSnake h0.1) h0.2 from by
        simp [hgStep, hskip]] at hmem
      rcases ih _ hmem with h2 | ⟨hh, hhs, h3⟩
      · rcases keysOf_groupAdd_sub g _ h0.2 h2 with h3 | h3
        · exact Or.inl h3
        · exact Or.inr ⟨h0, by simp, h3, hskip⟩
      · exact Or.inr ⟨hh, by simp [hhs], h3⟩

theorem nodup_keysOf_hgFold : ∀ (hl : List (Bytes × Bytes))
    (g : List (Bytes × List Bytes)), (keysOf g).Nodup →
    (keysOf (hl.foldl hgStep g)).Nodup := by
  intro hl
  induction hl with
  | nil => intro g h; exact h
  | cons h0 hs ih =>
    intro g h
    rw [List.foldl_cons]
    by_cases hskip : upperSnake h0.1 = strB "CONTENT_TYPE" ∨
        upperSnake h0.1 = strB "CONTENT_LENGTH" ∨ upperSnake h0.1 = strB "PROXY"
    · rw [show hgStep g h0 = g from by simp [hgStep, hskip]]
      exact ih g h
    · rw [show hgStep g h0 = groupAdd g (strB "HTTP_" ++ upperSnake h0.1) h0.2 from by
        simp [hgStep, hskip]]
      exact ih _ (nodup_keysOf_groupAdd g _ h0.2 h)

theorem envFold_get_absent (key : Bytes) : ∀ (groups : List (Bytes × List Bytes))
    (e : List (Bytes × EnvValue)), key ∉ keysOf groups →
    dictGetV (groups.foldl envStep e) key = dictGetV e key := by
  intro groups
  induction groups with
  | nil => intro e _; rfl
  | cons g gs ih =>
    intro e hmem
    rw [List.foldl_cons, ih _ (fun hm => hmem (by simp [keysOf]; exact Or.inr (by
      simpa [keysOf] using hm)))]
    exact dictGetV_set_other e g.1 key _ (fun he => hmem (by simp [keysOf, he]))

theorem envFold_get_mem (key : Bytes) : ∀ (groups : List (Bytes × List Bytes))
    (e : List (Bytes × EnvValue)), (keysOf groups).Nodup → key ∈ keysOf groups →
    dictGetV (groups.foldl envStep e) key =
      some (.str (joinSep
        (if key.drop 5 = strB "COOKIE" then strB "; " else strB ", ")
        (groupsGet groups key))) := by
  intro groups
  induction groups with
  | nil => intro e _ hmem; simp [keysOf] at hmem
  | cons g gs ih =>
    intro e hnd hmem
    obtain ⟨k0, vs⟩ := g
    simp only [keysOf, List.map_cons, List.nodup_cons] at hnd
    rw [List.foldl_cons]
    by_cases hk : k0 = key
    · subst hk
      rw [envFold_get_absent k0 gs _ (by simpa [keysOf] using hnd.1)]
      unfold envStep
      rw [dictGetV_set_same]
      rw [show groupsGet ((k0, vs) :: gs) k0 = vs from by simp [groupsGet]]
    · have hmem2 : key ∈ keysOf gs := by
        simp [keysOf] at hmem
        rcases hmem with hmem | hmem
        · exact absurd hmem.symm hk
        · simpa [keysOf] using hmem
      rw [ih _ hnd.2 hmem2]
      rw [show groupsGet ((k0, vs) :: gs) key = groupsGet gs key from by
        simp [groupsGet, hk]]

theorem wsgiEnvCT_get_other (raw : List (Bytes × Bytes))
    (e : List (Bytes × EnvValue)) (key : Bytes) (hk : key ≠ strB "CONTENT_TYPE") :
    dictGetV (wsgiEnvCT raw e) key = dictGetV e key := by
  unfold wsgiEnvCT
  cases dictGet raw (strB "content-type") with
  | none => rfl
  | some ct =>
    show dictGetV
      (if ct ≠ [] then dictSetV e (strB "CONTENT_TYPE") (EnvValue.str ct) else e) key =
      dictGetV e key
    by_cases hct : ct ≠ []
    · rw [if_pos hct]
      exact dictGetV_set_other e _ key _ hk
    · rw [if_neg hct]

theorem wsgiEnvCL_get_other (raw : List (Bytes × Bytes))
    (e : List (Bytes × EnvValue)) (key : Bytes) (hk : key ≠ strB "CONTENT_LENGTH") :
    dictGetV (wsgiEnvCL raw e) key = dictGetV e key := by
  unfold wsgiEnvCL
  cases dictGet raw (strB "content-length") with
  | none => rfl
  | some cl =>
    show dictGetV
      (if cl ≠ [] then dictSetV e (strB "CONTENT_LENGTH") (EnvValue.str cl) else e) key =
      dictGetV e key
    by_cases hcl : cl ≠ []
    · rw [if_pos hcl]
      exact dictGetV_set_other e _ key _ hk
    · rw [if_neg hcl]

theorem drop5_http (K : Bytes) : (strB "HTTP_" ++ K).drop 5 = K := by
  rw [show (5 : Nat) = (strB "HTTP_").length from rfl, List.drop_left]

/-- A fixed HTTP_-prefixed key cannot be produced by a skipped header
name, and CONTENT_TYPE / CONTENT_LENGTH never carry the prefix. -/
theorem not_mem_keys_headerGroups_of (key : Bytes) (hl : List (Bytes × Bytes))
    (hkey : ∀ x : Bytes, key = strB "HTTP_" ++ x →
      x = strB "CONTENT_TYPE" ∨ x = strB "CONTENT_LENGTH" ∨ x = strB "PROXY") :
    key ∉ keysOf (headerGroups hl) := by
  intro hmem
  rcases keysOf_hgFold_mem key hl [] hmem with h2 | ⟨h, _, heq, hnskip⟩
  · simp [keysOf] at h2
  · exact hnskip (hkey (upperSnake h.1) heq)

theorem no_http_prefix_ct (x : Bytes) : strB "CONTENT_TYPE" ≠ strB "HTTP_" ++ x := by
  intro he
  have h1 : (strB "CONTENT_TYPE" : Bytes).head? = some 67 := rfl
  have h2 : ((strB "HTTP_" ++ x : Bytes)).head? = some 72 := rfl
  rw [he, h2] at h1
  simp at h1

theorem no_http_prefix_cl (x : Bytes) : strB "CONTENT_LENGTH" ≠ strB "HTTP_" ++ x := by
  intro he
  have h1 : (strB "CONTENT_LENGTH" : Bytes).head? = some 67 := rfl
  have h2 : ((strB "HTTP_" ++ x : Bytes)).head? = some 72 := rfl
  rw [he, h2] at h1
  simp at h1

/-- C5: header translation of the synchronous environment builder.
Names are transformed to HTTP_ plus the ASCII upper-snake form of the
lowercased wire name; duplicate non-cookie values join with ", ",
Cookie values join with "; ", Content-Type and Content-Length appear
only as the unprefixed CONTENT_TYPE and CONTENT_LENGTH keys and never
in the HTTP_ namespace, and a Proxy header never yields HTTP_PROXY. -/
theorem C5_wsgi_header_translation
    (method path version : Bytes) (hl raw : List (Bytes × Bytes)) (body : Bytes)
    (env : List (Bytes × EnvValue))
    (henv : build_wsgi_environ method path version hl raw body = some env) :
    (∀ K : Bytes,
      ¬(K = strB "CONTENT_TYPE" ∨ K = strB "CONTENT_LENGTH" ∨ K = strB "PROXY") →
      K ≠ strB "COOKIE" →
      valuesFor K hl ≠ [] →
      dictGetV env (strB "HTTP_" ++ K) =
        some (.str (joinSep (strB ", ") (valuesFor K hl)))) ∧
    (valuesFor (strB "COOKIE") hl ≠ [] →
      dictGetV env (strB "HTTP_COOKIE") =
        some (.str (joinSep (strB "; ") (valuesFor (strB "COOKIE") hl)))) ∧
    (dictGetV env (strB "HTTP_CONTENT_TYPE") = none ∧
     dictGetV env (strB "HTTP_CONTENT_LENGTH") = none ∧
     dictGetV env (strB "HTTP_PROXY") = none) ∧
    (∀ ct : Bytes, dictGet raw (strB "content-type") = some ct → ct ≠ [] →
      dictGetV env (strB "CONTENT_TYPE") = some (.str ct)) ∧
    (∀ cl : Bytes, dictGet raw (strB "content-length") = some cl → cl ≠ [] →
      dictGetV env (strB "CONTENT_LENGTH") = some (.str cl)) := by
  unfold build_wsgi_environ at henv
  cases hsp : parse_host_header (dictGetD raw (strB "host") (strB "localhost")) 80 with
  | none =>
    simp only [hsp] at henv
    exact Option.noConfusion henv
  | some sp =>
    simp only [hsp, Option.some.injEq] at henv
    subst henv
    have hnodup : (keysOf (headerGroups hl)).Nodup :=
      nodup_keysOf_hgFold hl [] (by simp [keysOf])
    refine ⟨?_, ?_, ⟨?_, ?_, ?_⟩, ?_, ?_⟩
    · intro K hK hcookie hvne
      have hGG : groupsGet (headerGroups hl) (strB "HTTP_" ++ K) = valuesFor K hl := by
        have := groupsGet_hgFold K hK hl []
        simpa [headerGroups, groupsGet] using this
      have hmem : strB "HTTP_" ++ K ∈ keysOf (headerGroups hl) :=
        groupsGet_ne_nil_mem _ (by rw [hGG]; exact hvne)
      rw [envFold_get_mem _ _ _ hnodup hmem, hGG, drop5_http, if_neg hcookie]
    · intro hvne
      have hK : ¬(strB "COOKIE" = strB "CONTENT_TYPE" ∨
          strB "COOKIE" = strB "CONTENT_LENGTH" ∨ strB "COOKIE" = strB "PROXY") := by
        decide
      have hGG : groupsGet (headerGroups hl) (strB "HTTP_" ++ strB "COOKIE") =
          valuesFor (strB "COOKIE") hl := by
        have := groupsGet_hgFold (strB "COOKIE") hK hl []
        simpa [headerGroups, groupsGet] using this
      have hmem : strB "HTTP_" ++ strB "COOKIE" ∈ keysOf (headerGroups hl) :=
        groupsGet_ne_nil_mem _ (by rw [hGG]; exact hvne)
      have heq : (strB "HTTP_COOKIE" : Bytes) = strB "HTTP_" ++ strB "COOKIE" := rfl
      rw [heq, envFold_get_mem _ _ _ hnodup hmem, hGG, drop5_http, if_pos rfl]
    · rw [envFold_get_absent _ _ _ (not_mem_keys_headerGroups_of _ hl (by
        intro x hx
        have : x = strB "CONTENT_TYPE" := by
          have h5 : (strB "HTTP_" ++ x : Bytes).drop 5 =
              (strB "HTTP_CONTENT_TYPE" : Bytes).drop 5 := by rw [hx]
          rw [drop5_http] at h5
          exact h5.trans (show (strB "HTTP_CONTENT_TYPE" : Bytes).drop 5 = strB "CONTENT_TYPE" from rfl)
        exact Or.inl this))]
      rw [wsgiEnvCL_get_other _ _ _ (by decide), wsgiEnvCT_get_other _ _ _ (by decide)]
      rfl
    · rw [envFold_get_absent _ _ _ (not_mem_keys_headerGroups_of _ hl (by
        intro x hx
        have : x = strB "CONTENT_LENGTH" := by
          have h5 : (strB "HTTP_" ++ x : Bytes).drop 5 =
              (strB "HTTP_CONTENT_LENGTH" : Bytes).drop 5 := by rw [hx]
          rw [drop5_http] at h5
          exact h5.trans (show (strB "HTTP_CONTENT_LENGTH" : Bytes).drop 5 = strB "CONTENT_LENGTH" from rfl)
        exact Or.inr (Or.inl this)))]
      rw [wsgiEnvCL_get_other _ _ _ (by decide), wsgiEnvCT_get_other _ _ _ (by decide)]
      rfl
    · rw [envFold_get_absent _ _ _ (not_mem_keys_headerGroups_of _ hl (by
        intro x hx
        have : x = strB "PROXY" := by
          have h5 : (strB "HTTP_" ++ x : Bytes).drop 5 =
              (strB "HTTP_PROXY" : Bytes).drop 5 := by rw [hx]
          rw [drop5_http] at h5
          exact h5.trans (show (strB "HTTP_PROXY" : Bytes).drop 5 = strB "PROXY" from rfl)
        exact Or.inr (Or.inr this)))]
      rw [wsgiEnvCL_get_other _ _ _ (by decide), wsgiEnvCT_get_other _ _ _ (by decide)]
      rfl
    · intro ct hct hctne
      rw [envFold_get_absent _ _ _ (not_mem_keys_headerGroups_of _ hl
        (fun x hx => absurd hx (no_http_prefix_ct x)))]
      rw [wsgiEnvCL_get_other _ _ _ (by decide)]
      unfold wsgiEnvCT
      rw [hct]
      simp [hctne, dictGetV_set_same]
    · intro cl hcl hclne
      rw [envFold_get_absent _ _ _ (not_mem_keys_headerGroups_of _ hl
        (fun x hx => absurd hx (no_http_prefix_cl x)))]
      unfold wsgiEnvCL
      rw [hcl]
      simp [hclne, dictGetV_set_same]

/-- Headers of the C5 witness request: duplicate X-A and Cookie
headers, a Proxy header and a Content-Type header. -/
def c5hl : List (Bytes × Bytes) :=
  [(strB "host", strB "x"), (strB "x-a", strB "a"), (strB "cookie", strB "a=1"),
   (strB "x-a", strB "b"), (strB "cookie", strB "b=2"), (strB "proxy", strB "evil"),
   (strB "content-type", strB "text/html")]

/-- Raw-header dict of the C5 witness request. -/
def c5raw : List (Bytes × Bytes) :=
  [(strB "host", strB "x"), (strB "content-type", strB "text/html")]

/-- The environ the builder produces for the C5 witness request. -/
def c5env : List (Bytes × EnvValue) :=
  (build_wsgi_environ (strB "GET") (strB "/") (strB "HTTP/1.1") c5hl c5raw []).getD []

/-- Witness for C5 on a concrete request with duplicate, cookie, proxy
and content-type headers. -/
theorem C5_wsgi_header_translation_witness :
    dictGetV c5env (strB "HTTP_X_A") = some (.str (strB "a, b")) ∧
    dictGetV c5env (strB "HTTP_COOKIE") = some (.str (strB "a=1; b=2")) ∧
    dictGetV c5env (strB "HTTP_PROXY") = none ∧
    dictGetV c5env (strB "CONTENT_TYPE") = some (.str (strB "text/html")) := by
  have hc := C5_wsgi_header_translation (strB "GET") (strB "/") (strB "HTTP/1.1")
    c5hl c5raw [] c5env (by rfl)
  refine ⟨?_, ?_, ?_, ?_⟩
  · have h := hc.1 (strB "X_A") (by decide) (by decide) (by decide)
    rw [show (strB "HTTP_X_A" : Bytes) = strB "HTTP_" ++ strB "X_A" from rfl, h]
    decide
  · have h := hc.2.1 (by decide)
    rw [h]
    decide
  · exact hc.2.2.1.2.2
  · exact hc.2.2.2.1 (strB "text/html") (by decide) (by decide)

/-! ### Claim C4: lifespan startup and application exceptions -/

/-- The lifespan messages distinguished by the send callable of
_handle_asgi_lifespan. -/
inductive LifespanMsg where
  | startupComplete
  | startupFailed (msg : Bytes)
  | shutdownComplete
  | shutdownFailed (msg : Bytes)
deriving DecidableEq, Repr

/-- The two startup flags of _handle_asgi_lifespan. -/
structure LifespanFlags where
  startup_complete : Bool
  startup_failed : Bool
deriving DecidableEq, Repr

/-- One send(message) call of the lifespan protocol (lines 815-832):
startup.complete sets the event; startup.failed sets the failed flag
and the event; the shutdown messages only touch the shutdown event. -/
def lifespanSend (st : LifespanFlags) (m : LifespanMsg) : LifespanFlags :=
  match m with
  | .startupComplete => ⟨true, st.startup_failed⟩
  | .startupFailed _ => ⟨true, true⟩
  | .shutdownComplete => st
  | .shutdownFailed _ => st

/-- Startup-phase behavior of the application's lifespan coroutine: the
messages it sends, and whether it then raises before the startup wait
is released. -/
structure LifespanApp where
  msgs : List LifespanMsg
  raises : Bool
deriving DecidableEq, Repr

def isStartupFailedMsg : LifespanMsg → Bool
  | .startupFailed _ => true
  | _ => false

def setsStartupComplete : LifespanMsg → Bool
  | .startupComplete => true
  | .startupFailed _ => true
  | _ => false

/-- The ok result of _handle_asgi_lifespan (lines 798-849): the app
sends its messages; an unhandled exception sets startup_complete if it
was not set (the except branch of run(), lines 837-840) but leaves
startup_failed untouched; the handler then blocks forever if
startup_complete was never set (none), and otherwise returns
ok = not startup_failed. -/
def handle_asgi_lifespan (app : LifespanApp) : Option Bool :=
  let st := app.msgs.foldl lifespanSend ⟨false, false⟩
  let st2 : LifespanFlags :=
    if app.raises && !st.startup_complete then ⟨true, st.startup_failed⟩ else st
  if st2.startup_complete then some (!st2.startup_failed) else none

/-- What run_asgi_server (lines 866-875) does before binding a
listener when lifespan is enabled. -/
inductive ServerStart where
  | exitNonZeroNoBind
  | binds
  | hangs
deriving DecidableEq, Repr

/-- The startup phase of run_asgi_server: with lifespan on, a failed
lifespan handshake exits non-zero before any listener is bound. -/
def run_asgi_server_start (lifespan : Bool) (app : LifespanApp) : ServerStart :=
  if lifespan then
    match handle_asgi_lifespan app with
    | none => .hangs
    | some false => .exitNonZeroNoBind
    | some true => .binds
  else .binds

theorem lifespanSend_foldl_failed : ∀ (msgs : List LifespanMsg) (st : LifespanFlags),
    (msgs.foldl lifespanSend st).startup_failed =
      (st.startup_failed || msgs.any isStartupFailedMsg) := by
  intro msgs
  induction msgs with
  | nil => intro st; simp
  | cons m ms ih =>
    intro st
    rw [List.foldl_cons, ih, List.any_cons]
    cases m <;> simp [lifespanSend, isStartupFailedMsg, Bool.or_assoc]

theorem lifespanSend_foldl_complete : ∀ (msgs : List LifespanMsg) (st : LifespanFlags),
    (msgs.foldl lifespanSend st).startup_complete =
      (st.startup_complete || msgs.any setsStartupComplete) := by
  intro msgs
  induction msgs with
  | nil => intro st; simp
  | cons m ms ih =>
    intro st
    rw [List.foldl_cons, ih, List.any_cons]
    cases m <;> simp [lifespanSend, setsStartupComplete, Bool.or_assoc]

/-- C4 counterexample: an application that raises during startup
(before any message) makes the server proceed and bind, while an
explicit lifespan.startup.failed makes it exit non-zero without
binding — the exception is not treated as startup.failed. -/
theorem C4_counterexample_exception_not_failed :
    run_asgi_server_start true ⟨[], true⟩ = .binds ∧
    run_asgi_server_start true ⟨[.startupFailed []], false⟩ = .exitNonZeroNoBind ∧
    run_asgi_server_start true ⟨[], true⟩ ≠
      run_asgi_server_start true ⟨[.startupFailed []], false⟩ := by
  refine ⟨by decide, by decide, by decide⟩

/-- C4 amended: an unhandled application exception during startup is
logged and treated as if startup completed successfully — the
lifespan handler reports ok and the server binds its listener; only an
explicit lifespan.startup.failed message makes the process exit
non-zero without ever binding. -/
theorem handle_asgi_lifespan_raises (msgs : List LifespanMsg) :
    handle_asgi_lifespan ⟨msgs, true⟩ = some (!(msgs.any isStartupFailedMsg)) := by
  by_cases hcomp :
      (msgs.foldl lifespanSend ⟨false, false⟩).startup_complete = true
  · simp [handle_asgi_lifespan, hcomp, lifespanSend_foldl_failed]
  · have hcf : (msgs.foldl lifespanSend ⟨false, false⟩).startup_complete = false := by
      cases h : (msgs.foldl lifespanSend ⟨false, false⟩).startup_complete
      · rfl
      · exact absurd h hcomp
    simp [handle_asgi_lifespan, hcf, lifespanSend_foldl_failed]

theorem handle_asgi_lifespan_failed_msgs (msgs : List LifespanMsg) (r : Bool)
    (h : msgs.any isStartupFailedMsg = true) :
    handle_asgi_lifespan ⟨msgs, r⟩ = some false := by
  have hc : (msgs.foldl lifespanSend ⟨false, false⟩).startup_complete = true := by
    rw [lifespanSend_foldl_complete]
    rw [List.any_eq_true] at h
    obtain ⟨m, hm, hmf⟩ := h
    have : msgs.any setsStartupComplete = true := by
      rw [List.any_eq_true]
      refine ⟨m, hm, ?_⟩
      cases m <;> simp_all [isStartupFailedMsg, setsStartupComplete]
    simp [this]
  have hf : (msgs.foldl lifespanSend ⟨false, false⟩).startup_failed = true := by
    rw [lifespanSend_foldl_failed, h]
    simp
  simp [handle_asgi_lifespan, hc, hf]

/-- C4 amended: an unhandled application exception during startup is
logged and treated as if startup completed successfully — the
lifespan handler reports ok and the server binds its listener; only an
explicit lifespan.startup.failed message makes the process exit
non-zero without ever binding. -/
theorem C4_lifespan_startup_outcome :
    (∀ msgs : List LifespanMsg,
      run_asgi_server_start true ⟨msgs, true⟩ =
        (if msgs.any isStartupFailedMsg then .exitNonZeroNoBind else .binds)) ∧
    (∀ (msgs : List LifespanMsg) (r : Bool), msgs.any isStartupFailedMsg = true →
      run_asgi_server_start true ⟨msgs, r⟩ = .exitNonZeroNoBind) ∧
    (∀ app : LifespanApp, run_asgi_server_start false app = .binds) := by
  refine ⟨?_, ?_, fun app => rfl⟩
  · intro msgs
    unfold run_asgi_server_start
    rw [if_pos rfl, handle_asgi_lifespan_raises]
    by_cases hf : msgs.any isStartupFailedMsg = true
    · simp [hf]
    · have hf2 : msgs.any isStartupFailedMsg = false := by
        cases h : msgs.any isStartupFailedMsg
        · rfl
        · exact absurd h hf
      simp [hf2]
  · intro msgs r h
    unfold run_asgi_server_start
    rw [if_pos rfl, handle_asgi_lifespan_failed_msgs msgs r h]

/-- Witness for the amended C4 at concrete lifespan behaviors. -/
theorem C4_lifespan_startup_outcome_witness :
    run_asgi_server_start true ⟨[.startupComplete], true⟩ = .binds ∧
    run_asgi_server_start true ⟨[.startupFailed (strB "nope")], true⟩ =
      .exitNonZeroNoBind ∧
    run_asgi_server_start false ⟨[], false⟩ = .binds := by
  refine ⟨?_, ?_, C4_lifespan_startup_outcome.2.2 ⟨[], false⟩⟩
  · have h := C4_lifespan_startup_outcome.1 [.startupComplete]
    simpa using h
  · exact C4_lifespan_startup_outcome.2.1 [.startupFailed (strB "nope")] true (by decide)

/-! ### Claim C8: the WebSocket handshake accept key

ws_accept_key composes two standard-library primitives, modelled here
from their specifications: hashlib.sha1 (FIPS 180-1) and
base64.b64encode (RFC 4648). -/

/-- 32-bit rotate left. -/
def rotl32 (n x : Nat) : Nat := ((x <<< n) % 4294967296) ||| (x >>> (32 - n))

/-- SHA-1 padding: one 0x80 byte, zeros up to 56 mod 64, then the
64-bit big-endian bit length. -/
def sha1Pad (msg : Bytes) : Bytes :=
  msg ++ [128] ++ List.replicate ((64 - ((msg.length + 9) % 64)) % 64) 0 ++
    packBE 8 (8 * msg.length)

/-- Split a message into 64-byte blocks (fuel-bounded for structural
recursion; one byte of fuel per byte of input always suffices). -/
def toBlocksFuel : Nat → Bytes → List Bytes
  | 0, _ => []
  | fuel + 1, l => if l = [] then [] else l.take 64 :: toBlocksFuel fuel (l.drop 64)

def toBlocks (l : Bytes) : List Bytes := toBlocksFuel (l.length + 1) l

/-- The sixteen 32-bit big-endian words of one block. -/
def toWordsFuel : Nat → Bytes → List Nat
  | 0, _ => []
  | fuel + 1, l => if l = [] then [] else unpackBE (l.take 4) :: toWordsFuel fuel (l.drop 4)

def toWords (block : Bytes) : List Nat := toWordsFuel 16 block

/-- One message-schedule extension step: append
rotl1 of W[t-3] xor W[t-8] xor W[t-14] xor W[t-16]. -/
def sha1ExtendFuel : Nat → List Nat → List Nat
  | 0, ws => ws
  | fuel + 1, ws =>
    sha1ExtendFuel fuel (ws ++
      [rotl32 1 ((ws.getD (ws.length - 3) 0) ^^^ (ws.getD (ws.length - 8) 0) ^^^
        (ws.getD (ws.length - 14) 0) ^^^ (ws.getD (ws.length - 16) 0))])

/-- The 80-word message schedule of a block. -/
def sha1Schedule (ws : List Nat) : List Nat := sha1ExtendFuel 64 ws

/-- The SHA-1 round function for round t. -/
def sha1F (t b c d : Nat) : Nat :=
  if t < 20 then (b &&& c) ||| ((b ^^^ 4294967295) &&& d)
  else if t < 40 then b ^^^ c ^^^ d
  else if t < 60 then (b &&& c) ||| (b &&& d) ||| (c &&& d)
  else b ^^^ c ^^^ d

/-- The SHA-1 round constant for round t. -/
def sha1K (t : Nat) : Nat :=
  if t < 20 then 1518500249
  else if t < 40 then 1859775393
  else if t < 60 then 2400959708
  else 3395469782

/-- The 80 compression rounds over the schedule words. -/
def sha1Rounds : List Nat → Nat → Nat × Nat × Nat × Nat × Nat →
    Nat × Nat × Nat × Nat × Nat
  | [], _, st => st
  | w :: ws, t, (a, b, c, d, e) =>
    let tmp := (rotl32 5 a + sha1F t b c d + e + sha1K t + w) % 4294967296
    sha1Rounds ws (t + 1) (tmp, a, rotl32 30 b, c, d)

/-- Process one 64-byte block. -/
def sha1Block (h : Nat × Nat × Nat × Nat × Nat) (block : Bytes) :
    Nat × Nat × Nat × Nat × Nat :=
  let ws := sha1Schedule (toWords block)
  let r := sha1Rounds ws 0 h
  ((h.1 + r.1) % 4294967296,
   (h.2.1 + r.2.1) % 4294967296,
   (h.2.2.1 + r.2.2.1) % 4294967296,
   (h.2.2.2.1 + r.2.2.2.1) % 4294967296,
   (h.2.2.2.2 + r.2.2.2.2) % 4294967296)

/-- SHA-1 digest (20 bytes). -/
def sha1 (msg : Bytes) : Bytes :=
  let h := (toBlocks (sha1Pad msg)).foldl sha1Block
    (1732584193, 4023233417, 2562383102, 271733878, 3285377520)
  packBE 4 h.1 ++ packBE 4 h.2.1 ++ packBE 4 h.2.2.1 ++
    packBE 4 h.2.2.2.1 ++ packBE 4 h.2.2.2.2

/-- The RFC 4648 base64 alphabet. -/
def b64Char (n : Nat) : Nat :=
  if n < 26 then 65 + n
  else if n < 52 then 97 + (n - 26)
  else if n < 62 then 48 + (n - 52)
  else if n = 62 then 43
  else 47

/-- base64.b64encode with = padding. -/
def b64encode : Bytes → Bytes
  | [] => []
  | [a] => [b64Char (a >>> 2), b64Char ((a &&& 3) <<< 4), 61, 61]
  | [a, b] =>
    [b64Char (a >>> 2), b64Char (((a &&& 3) <<< 4) ||| (b >>> 4)),
     b64Char ((b &&& 15) <<< 2), 61]
  | a :: b :: c :: rest =>
    b64Char (a >>> 2) :: b64Char (((a &&& 3) <<< 4) ||| (b >>> 4)) ::
    b64Char (((b &&& 15) <<< 2) ||| (c >>> 6)) :: b64Char (c &&& 63) ::
    b64encode rest

/-- The RFC 6455 magic GUID appended to the client key. -/
def WS_MAGIC : Bytes := strB "258EAFA5-E914-47DA-95CA-C5AB0DC85B11"

/-- The embedding of ws_accept_key (lines 419-421). -/
def ws_accept_key (key : Bytes) : Bytes := b64encode (sha1 (key ++ WS_MAGIC))

theorem packBE_length : ∀ k n : Nat, (packBE k n).length = k := by
  intro k
  induction k with
  | zero => intro n; rfl
  | succ k ih =>
    intro n
    show (packBE k (n / 256) ++ [n % 256]).length = k + 1
    simp [ih]

theorem sha1_length (msg : Bytes) : (sha1 msg).length = 20 := by
  unfold sha1
  simp [packBE_length]

set_option maxRecDepth 10000 in
/-- C8: the handshake accept value is the base64 encoding of the
20-byte SHA-1 digest of the client key concatenated with the RFC 6455
GUID, and on the canonical key dGhlIHNhbXBsZSBub25jZQ== it equals
s3pPLMBiTxaQ9kYGzzhZRbK+xOo=. -/
theorem C8_ws_accept_key_spec :
    (∀ key : Bytes, ws_accept_key key = b64encode (sha1 (key ++ WS_MAGIC))) ∧
    (∀ key : Bytes, (sha1 (key ++ WS_MAGIC)).length = 20) ∧
    ws_accept_key (strB "dGhlIHNhbXBsZSBub25jZQ==") =
      strB "s3pPLMBiTxaQ9kYGzzhZRbK+xOo=" := by
  refine ⟨fun key => rfl, fun key => sha1_length _, by decide⟩

end Caddysnake
